import Mathlib

/-!
# Verification of the Ollama-OCR batch pipeline (`src/ocr_processor.py`)

A shallow embedding of `OCRProcessor` from `src/ocr_processor.py`:

* the JSON post-processing step (`json.loads` / `json.dumps(·, indent=2)`)
  is modelled by an executable JSON value type `JVal` with a renderer and a
  fuel-based parser (integers only; float literals, `ensure_ascii`
  transliteration of non-ASCII characters and duplicate-key collapsing of
  Python dicts are outside the model, as noted on the definitions);
* filesystem, image decoding, PDF rendering, the OpenCV enhancement calls
  and the HTTP endpoint are modelled as an explicit `World` of oracles,
  and on-disk transient files as an explicit `FS` state threaded through
  the pipeline;
* `process_image` and `process_batch` are translated statement by
  statement; the thread pool of `process_batch` is modelled as a
  sequential fold, which is adequate for the properties proved here
  because the recorded mappings and counts do not depend on completion
  order (each submitted item writes exactly one key, and the worlds are
  deterministic oracles).
-/

/-! ## Association-list dictionaries (model of Python `dict`) -/

/-- Model of a Python `dict` with string keys and string values:
an association list where insertion overwrites an existing key in place
and otherwise appends. -/
abbrev Dict := List (String × String)

/-- The keys of a dictionary, in insertion order. -/
def dkeys (m : Dict) : List String := m.map Prod.fst

/-- Lookup in an association-list dictionary. -/
def dlookup (m : Dict) (k : String) : Option String :=
  match m with
  | [] => none
  | (k2, v) :: t => if k2 = k then some v else dlookup t k

/-- `d[k] = v`: overwrite the first occurrence of `k`, else append. -/
def dinsert (m : Dict) (k v : String) : Dict :=
  match m with
  | [] => [(k, v)]
  | (k2, v2) :: t => if k2 = k then (k2, v) :: t else (k2, v2) :: dinsert t k v

theorem dkeys_dinsert (m : Dict) (k v : String) :
    dkeys (dinsert m k v) = if k ∈ dkeys m then dkeys m else dkeys m ++ [k] := by
  induction m with
  | nil => simp [dkeys, dinsert]
  | cons hd t ih =>
    obtain ⟨k2, v2⟩ := hd
    by_cases h : k2 = k
    · subst h; simp [dkeys, dinsert]
    · have hk : dkeys ((k2, v2) :: dinsert t k v) = k2 :: dkeys (dinsert t k v) := rfl
      simp only [dinsert, if_neg h, hk, ih]
      by_cases hm : k ∈ dkeys t
      · rw [if_pos hm, if_pos (show k ∈ dkeys ((k2, v2) :: t) from List.mem_cons_of_mem _ hm)]
        rfl
      · rw [if_neg hm, if_neg ?_]
        · rfl
        · intro hcon
          rcases List.mem_cons.mp hcon with h1 | h1
          · exact h h1.symm
          · exact hm h1

theorem length_dinsert (m : Dict) (k v : String) :
    (dinsert m k v).length = if k ∈ dkeys m then m.length else m.length + 1 := by
  have h1 : (dinsert m k v).length = (dkeys (dinsert m k v)).length := by
    simp [dkeys]
  have h2 : m.length = (dkeys m).length := by simp [dkeys]
  rw [h1, h2, dkeys_dinsert]
  by_cases h : k ∈ dkeys m <;> simp [h]

theorem mem_dkeys_dinsert (m : Dict) (k v a : String) :
    a ∈ dkeys (dinsert m k v) ↔ a ∈ dkeys m ∨ a = k := by
  rw [dkeys_dinsert]
  by_cases h : k ∈ dkeys m
  · simp only [if_pos h]
    constructor
    · exact fun ha => Or.inl ha
    · rintro (ha | rfl) <;> [exact ha; exact h]
  · simp [if_neg h]

theorem nodup_dkeys_dinsert (m : Dict) (k v : String) (h : (dkeys m).Nodup) :
    (dkeys (dinsert m k v)).Nodup := by
  rw [dkeys_dinsert]
  by_cases hm : k ∈ dkeys m
  · simpa [hm] using h
  · simp only [if_neg hm]
    apply List.Nodup.append h (List.nodup_singleton k)
    intro b hb hbk
    rw [List.mem_singleton] at hbk
    subst hbk
    exact hm hb

theorem mem_of_dinsert_mem (m : Dict) (k v : String) (kv : String × String)
    (h : kv ∈ dinsert m k v) : kv ∈ m ∨ kv = (k, v) := by
  induction m with
  | nil => simpa [dinsert] using h
  | cons hd t ih =>
    obtain ⟨k2, v2⟩ := hd
    by_cases hk : k2 = k
    · simp only [dinsert, if_pos hk] at h
      rcases List.mem_cons.mp h with h1 | h1
      · right; rw [h1, hk]
      · left; exact List.mem_cons_of_mem _ h1
    · simp only [dinsert, if_neg hk] at h
      rcases List.mem_cons.mp h with h1 | h1
      · left; rw [h1]; exact List.mem_cons_self _ _
      · rcases ih h1 with h2 | h2
        · left; exact List.mem_cons_of_mem _ h2
        · right; exact h2

theorem dlookup_isSome_iff (m : Dict) (k : String) :
    (dlookup m k).isSome = true ↔ k ∈ dkeys m := by
  induction m with
  | nil => simp [dlookup, dkeys]
  | cons hd t ih =>
    obtain ⟨k2, v2⟩ := hd
    by_cases h : k2 = k
    · subst h; simp [dlookup, dkeys]
    · simp [dlookup, h, dkeys, ih, Ne.symm h]

theorem dlookup_mem (m : Dict) (k v : String) (h : dlookup m k = some v) :
    (k, v) ∈ m := by
  induction m with
  | nil => simp [dlookup] at h
  | cons hd t ih =>
    obtain ⟨k2, v2⟩ := hd
    by_cases hk : k2 = k
    · subst hk
      have hv : v2 = v := by simpa [dlookup] using h
      subst hv
      exact List.mem_cons_self _ _
    · simp only [dlookup, if_neg hk] at h
      exact List.mem_cons_of_mem _ (ih h)

/-! ## Base64 (model of `base64.b64encode`, used by `_encode_image`) -/

/-- The base64 alphabet. -/
def b64Table : List Char :=
  ['A','B','C','D','E','F','G','H','I','J','K','L','M','N','O','P','Q','R','S','T','U','V','W',
   'X','Y','Z','a','b','c','d','e','f','g','h','i','j','k','l','m','n','o','p','q','r','s','t',
   'u','v','w','x','y','z','0','1','2','3','4','5','6','7','8','9','+','/']

/-- One base64 alphabet character. -/
def b64Char (n : Nat) : Char := b64Table.getD n 'A'

/-- Standard base64 of a byte list, with `=` padding, as produced by
`base64.b64encode(...).decode("utf-8")`. -/
def b64encode : List Nat → List Char
  | [] => []
  | [a] => [b64Char (a / 4), b64Char (a % 4 * 16), '=', '=']
  | [a, b] => [b64Char (a / 4), b64Char (a % 4 * 16 + b / 16), b64Char (b % 16 * 4), '=']
  | a :: b :: c :: rest =>
      [b64Char (a / 4), b64Char (a % 4 * 16 + b / 16), b64Char (b % 16 * 4 + c / 64),
       b64Char (c % 64)] ++ b64encode rest

/-! ## JSON values

Model of the fragment of Python's `json` module used at
`src/ocr_processor.py` lines 200-205 (`json.loads` and
`json.dumps(·, indent=2)`).  Restrictions of the model, each noted where
it matters: numbers are integers (no float literals), objects are
association lists in source order (Python dicts collapse a repeated key,
last occurrence winning), and the serializer emits non-ASCII characters
literally instead of `ensure_ascii` `\uXXXX` transliteration (which
changes only the escape spelling, not the parsed value). -/

/-- The opening brace character, `Char.ofNat 123`. -/
def lbraceC : Char := Char.ofNat 123

/-- The closing brace character, `Char.ofNat 125`. -/
def rbraceC : Char := Char.ofNat 125

/-- A JSON value: null, booleans, (integer) numbers, strings, arrays and
objects.  Objects keep their fields in source order. -/
inductive JVal : Type where
  | null : JVal
  | bool : Bool → JVal
  | num : Int → JVal
  | str : String → JVal
  | arr : List JVal → JVal
  | obj : List (String × JVal) → JVal

/-- The decimal digit character for `d < 10`. -/
def digitC (d : Nat) : Char := Char.ofNat (48 + d)

/-- Lowercase hexadecimal digit character for `n < 16`. -/
def hexDigitC (n : Nat) : Char := if n < 10 then Char.ofNat (48 + n) else Char.ofNat (87 + n)

/-- Decimal digits of `n`, most significant first.  The fuel argument
makes the definition structurally recursive (and hence kernel-reducible);
`fuel ≥ n + 1` always suffices. -/
def natCharsAux : Nat → Nat → List Char
  | 0, _ => []
  | fuel + 1, n => if n < 10 then [digitC n] else natCharsAux fuel (n / 10) ++ [digitC (n % 10)]

/-- Decimal digits of `n`, most significant first. -/
def natChars (n : Nat) : List Char := natCharsAux (n + 1) n

/-- Decimal rendering of an integer, as `repr(int)` / `json.dumps` emit it. -/
def renderIntC (i : Int) : List Char :=
  if i < 0 then '-' :: natChars i.natAbs else natChars i.natAbs

/-- JSON string escaping of one character: quote, backslash and the three
common control characters get two-character escapes, other control
characters get `\u00xx`, everything else is emitted literally. -/
def escapeChar (c : Char) : List Char :=
  if c = '"' then ['\\', '"']
  else if c = '\\' then ['\\', '\\']
  else if c = '\n' then ['\\', 'n']
  else if c = '\t' then ['\\', 't']
  else if c = '\r' then ['\\', 'r']
  else if c.toNat < 32 then ['\\', 'u', '0', '0', hexDigitC (c.toNat / 16), hexDigitC (c.toNat % 16)]
  else [c]

/-- JSON escaping of a character list. -/
def escBody : List Char → List Char
  | [] => []
  | c :: cs => escapeChar c ++ escBody cs

/-- A JSON string literal: quoted, escaped body. -/
def renderStrC (s : String) : List Char := '"' :: (escBody s.data ++ ['"'])

/-- `n` spaces, the indentation prefix of `json.dumps(·, indent=2)`. -/
def spacesC (n : Nat) : List Char := List.replicate n ' '

mutual

/-- Serialization of a JSON value at indentation depth `ind`, following
`json.dumps(value, indent=2)`: containers open with a newline, indent
items two deeper, and close on a fresh line at the enclosing depth. -/
def renderV : JVal → Nat → List Char
  | .null, _ => ['n', 'u', 'l', 'l']
  | .bool true, _ => ['t', 'r', 'u', 'e']
  | .bool false, _ => ['f', 'a', 'l', 's', 'e']
  | .num i, _ => renderIntC i
  | .str s, _ => renderStrC s
  | .arr [], _ => ['[', ']']
  | .arr (x :: xs), ind =>
      '[' :: '\n' :: (spacesC (ind + 2) ++ renderV x (ind + 2) ++ renderItems xs (ind + 2)
        ++ '\n' :: (spacesC ind ++ [']']))
  | .obj [], _ => [lbraceC, rbraceC]
  | .obj (kv :: kvs), ind =>
      lbraceC :: '\n' :: (spacesC (ind + 2) ++ renderField kv (ind + 2)
        ++ renderFields kvs (ind + 2) ++ '\n' :: (spacesC ind ++ [rbraceC]))

/-- Serialization of one `"key": value` object field. -/
def renderField : String × JVal → Nat → List Char
  | (k, v), ind => renderStrC k ++ ':' :: ' ' :: renderV v ind

/-- Serialization of the second and later array items, each preceded by
`",\n"` and indentation. -/
def renderItems : List JVal → Nat → List Char
  | [], _ => []
  | x :: xs, ind => ',' :: '\n' :: (spacesC ind ++ renderV x ind ++ renderItems xs ind)

/-- Serialization of the second and later object fields. -/
def renderFields : List (String × JVal) → Nat → List Char
  | [], _ => []
  | kv :: kvs, ind => ',' :: '\n' :: (spacesC ind ++ renderField kv ind ++ renderFields kvs ind)

end

/-- `json.dumps(j, indent=2)`. -/
def jsonDumps (j : JVal) : String := String.mk (renderV j 0)

/-! ## JSON parsing (model of `json.loads`) -/

/-- JSON insignificant whitespace, `' '`, `'\t'`, `'\n'`, `'\r'`. -/
def isWsC (c : Char) : Bool := c = ' ' || c = '\t' || c = '\n' || c = '\r'

/-- Drop leading JSON whitespace. -/
def skipWs : List Char → List Char
  | [] => []
  | c :: cs => if isWsC c then skipWs cs else c :: cs

/-- Does the list start with character `c`? -/
def headIs (c : Char) : List Char → Bool
  | [] => false
  | d :: _ => d = c

/-- Decimal digit predicate, by code point. -/
def isDigitC (c : Char) : Bool := decide (48 ≤ c.toNat ∧ c.toNat ≤ 57)

/-- Maximal leading run of decimal digits, and the remainder. -/
def takeDigits : List Char → List Char × List Char
  | [] => ([], [])
  | c :: cs =>
      if isDigitC c then
        let (ds, r) := takeDigits cs
        (c :: ds, r)
      else ([], c :: cs)

/-- Value of a decimal digit string (most significant first). -/
def digitsVal (ds : List Char) : Nat := ds.foldl (fun a c => 10 * a + (c.toNat - 48)) 0

/-- Parse an unsigned JSON integer: a nonempty digit run with no leading
zero (`json.loads` rejects `012`). -/
def pPosNumber (cs : List Char) : Option (Nat × List Char) :=
  let (ds, r) := takeDigits cs
  match ds with
  | [] => none
  | d :: ds2 => if d = '0' ∧ ds2 ≠ [] then none else some (digitsVal (d :: ds2), r)

/-- Parse an optionally signed JSON integer. -/
def pNumber (cs : List Char) : Option (Int × List Char) :=
  if headIs '-' cs then (pPosNumber cs.tail).map fun p => (-(p.1 : Int), p.2)
  else (pPosNumber cs).map fun p => ((p.1 : Int), p.2)

/-- Value of one hexadecimal digit character, either case. -/
def hexVal (c : Char) : Option Nat :=
  if 48 ≤ c.toNat ∧ c.toNat ≤ 57 then some (c.toNat - 48)
  else if 97 ≤ c.toNat ∧ c.toNat ≤ 102 then some (c.toNat - 87)
  else if 65 ≤ c.toNat ∧ c.toNat ≤ 70 then some (c.toNat - 55)
  else none

/-- Parse the body of a JSON string literal after the opening quote,
accumulating decoded characters in reverse.  Escapes cover the JSON
two-character forms and `\uXXXX` (surrogate code points rejected); a raw
control character is an error, as in `json.loads` strict mode.  Surrogate
pair combination is outside the model. -/
def pStringBody (acc : List Char) : List Char → Option (String × List Char)
  | [] => none
  | c :: cs =>
      if c = '"' then some (String.mk acc.reverse, cs)
      else if c = '\\' then
        match cs with
        | [] => none
        | e :: cs2 =>
            if e = '"' then pStringBody ('"' :: acc) cs2
            else if e = '\\' then pStringBody ('\\' :: acc) cs2
            else if e = '/' then pStringBody ('/' :: acc) cs2
            else if e = 'n' then pStringBody ('\n' :: acc) cs2
            else if e = 't' then pStringBody ('\t' :: acc) cs2
            else if e = 'r' then pStringBody ('\r' :: acc) cs2
            else if e = 'b' then pStringBody (Char.ofNat 8 :: acc) cs2
            else if e = 'f' then pStringBody (Char.ofNat 12 :: acc) cs2
            else if e = 'u' then
              match cs2 with
              | h1 :: h2 :: h3 :: h4 :: cs3 =>
                  match hexVal h1, hexVal h2, hexVal h3, hexVal h4 with
                  | some a, some b, some c2, some d =>
                      let code := ((a * 16 + b) * 16 + c2) * 16 + d
                      if 55296 ≤ code ∧ code < 57344 then none
                      else pStringBody (Char.ofNat code :: acc) cs3
                  | _, _, _, _ => none
              | _ => none
            else none
      else if c.toNat < 32 then none
      else pStringBody (c :: acc) cs

mutual

/-- Parse one JSON value after skipping leading whitespace.  Fuel bounds
the nesting recursion; `pVal 0` fails.  `jsonLoads` supplies fuel larger
than the input length, which always suffices. -/
def pVal : Nat → List Char → Option (JVal × List Char)
  | 0, _ => none
  | fuel + 1, s =>
      match skipWs s with
      | [] => none
      | c :: rest =>
          if c = 'n' then
            match rest with
            | 'u' :: 'l' :: 'l' :: r => some (.null, r)
            | _ => none
          else if c = 't' then
            match rest with
            | 'r' :: 'u' :: 'e' :: r => some (.bool true, r)
            | _ => none
          else if c = 'f' then
            match rest with
            | 'a' :: 'l' :: 's' :: 'e' :: r => some (.bool false, r)
            | _ => none
          else if c = '"' then
            match pStringBody [] rest with
            | some (s2, r) => some (.str s2, r)
            | none => none
          else if c = '[' then
            let s2 := skipWs rest
            if headIs ']' s2 then some (.arr [], s2.tail)
            else
              match pVal fuel s2 with
              | some (v, r) =>
                  match pElems fuel r with
                  | some (vs, r2) => some (.arr (v :: vs), r2)
                  | none => none
              | none => none
          else if c = lbraceC then
            let s2 := skipWs rest
            if headIs rbraceC s2 then some (.obj [], s2.tail)
            else
              match pField fuel s2 with
              | some (kv, r) =>
                  match pFields fuel r with
                  | some (kvs, r2) => some (.obj (kv :: kvs), r2)
                  | none => none
              | none => none
          else if c = '-' || isDigitC c then
            match pNumber (c :: rest) with
            | some (i, r) => some (.num i, r)
            | none => none
          else none

/-- Parse one `"key": value` object field (no leading whitespace skipping
before the key: callers position the input on the opening quote). -/
def pField : Nat → List Char → Option ((String × JVal) × List Char)
  | 0, _ => none
  | fuel + 1, s =>
      match s with
      | '"' :: rest =>
          match pStringBody [] rest with
          | some (k, r) =>
              let r2 := skipWs r
              if headIs ':' r2 then
                match pVal fuel r2.tail with
                | some (v, r3) => some ((k, v), r3)
                | none => none
              else none
          | none => none
      | _ => none

/-- Parse the rest of an array after one element: a `,`-separated tail
closed by `]`. -/
def pElems : Nat → List Char → Option (List JVal × List Char)
  | 0, _ => none
  | fuel + 1, s =>
      let s2 := skipWs s
      if headIs ',' s2 then
        match pVal fuel s2.tail with
        | some (v, r) =>
            match pElems fuel r with
            | some (vs, r2) => some (v :: vs, r2)
            | none => none
        | none => none
      else if headIs ']' s2 then some ([], s2.tail)
      else none

/-- Parse the rest of an object after one field: a `,`-separated tail
closed by `}`. -/
def pFields : Nat → List Char → Option (List (String × JVal) × List Char)
  | 0, _ => none
  | fuel + 1, s =>
      let s2 := skipWs s
      if headIs ',' s2 then
        match pField fuel (skipWs s2.tail) with
        | some (kv, r) =>
            match pFields fuel r with
            | some (kvs, r2) => some (kv :: kvs, r2)
            | none => none
        | none => none
      else if headIs rbraceC s2 then some ([], s2.tail)
      else none

end

/-- `json.loads`: parse a complete JSON document, requiring only
whitespace after the value. -/
def jsonLoads (s : String) : Option JVal :=
  let cs := s.data
  match pVal (cs.length + 1) cs with
  | some (j, rest) => if skipWs rest = [] then some j else none
  | none => none

/-! ## Round-trip: `jsonLoads (jsonDumps j) = some j` -/

mutual

/-- Structural size of a JSON value, used as a fuel bound for `pVal`. -/
def sizeJ : JVal → Nat
  | .null => 1
  | .bool _ => 1
  | .num _ => 1
  | .str _ => 1
  | .arr xs => 1 + sizeL xs
  | .obj kvs => 1 + sizeF kvs

/-- Fuel bound for `pElems` on an item tail. -/
def sizeL : List JVal → Nat
  | [] => 1
  | x :: xs => 1 + sizeJ x + sizeL xs

/-- Fuel bound for `pFields` on a field tail. -/
def sizeF : List (String × JVal) → Nat
  | [] => 1
  | kv :: kvs => 1 + sizeJ kv.2 + sizeF kvs

end

theorem sizeJ_pos (j : JVal) : 1 ≤ sizeJ j := by
  cases j <;> simp [sizeJ]

theorem sizeL_pos (xs : List JVal) : 1 ≤ sizeL xs := by
  cases xs <;> simp [sizeL] <;> omega

theorem sizeF_pos (kvs : List (String × JVal)) : 1 ≤ sizeF kvs := by
  cases kvs <;> simp [sizeF] <;> omega

/-- Is the head (if any) a non-digit?  A parse of a rendered number is
maximal-munch, so the context must not continue with a digit. -/
def numB : List Char → Bool
  | [] => true
  | c :: _ => !isDigitC c

theorem skipWs_cons_not_ws {c : Char} (s : List Char) (h : isWsC c = false) :
    skipWs (c :: s) = c :: s := by
  simp [skipWs, h]

theorem skipWs_spaces (n : Nat) (s : List Char) :
    skipWs (spacesC n ++ s) = skipWs s := by
  induction n with
  | zero => simp [spacesC]
  | succ k ih => simpa [spacesC, List.replicate_succ, skipWs, isWsC] using ih

theorem skipWs_nl (s : List Char) : skipWs ('\n' :: s) = skipWs s := by
  simp [skipWs, isWsC]

theorem skipWs_idem (s : List Char) : skipWs (skipWs s) = skipWs s := by
  induction s with
  | nil => simp [skipWs]
  | cons c cs ih =>
    by_cases h : isWsC c
    · simp [skipWs, h, ih]
    · simp [skipWs, h]

theorem pVal_skipWs (fuel : Nat) (s : List Char) : pVal fuel s = pVal fuel (skipWs s) := by
  cases fuel with
  | zero => rfl
  | succ f =>
    show (match skipWs s with | _ => _ : Option (JVal × List Char)) = _
    rw [pVal, pVal, skipWs_idem]

theorem toNat_digitC (d : Nat) (h : d < 10) : (digitC d).toNat = 48 + d := by
  interval_cases d <;> rfl

theorem isDigitC_digitC (d : Nat) (h : d < 10) : isDigitC (digitC d) = true := by
  interval_cases d <;> rfl

theorem natCharsAux_digits (fuel n : Nat) :
    ∀ c ∈ natCharsAux fuel n, isDigitC c = true := by
  induction fuel generalizing n with
  | zero => simp [natCharsAux]
  | succ f ih =>
    intro c hc
    rw [natCharsAux] at hc
    by_cases h : n < 10
    · rw [if_pos h] at hc
      simp only [List.mem_singleton] at hc
      exact hc ▸ isDigitC_digitC n h
    · rw [if_neg h] at hc
      rcases List.mem_append.mp hc with h1 | h1
      · exact ih _ c h1
      · simp only [List.mem_singleton] at h1
        exact h1 ▸ isDigitC_digitC _ (Nat.mod_lt _ (by omega))

theorem natCharsAux_ne_nil (fuel n : Nat) (h : n < fuel) : natCharsAux fuel n ≠ [] := by
  cases fuel with
  | zero => omega
  | succ f =>
    rw [natCharsAux]
    by_cases h10 : n < 10
    · simp [h10]
    · simp [h10]

theorem digitsVal_append_digit (ds : List Char) (c : Char) :
    digitsVal (ds ++ [c]) = 10 * digitsVal ds + (c.toNat - 48) := by
  simp [digitsVal, List.foldl_append]

theorem digitsVal_natCharsAux (fuel n : Nat) (h : n < fuel) :
    digitsVal (natCharsAux fuel n) = n := by
  induction fuel generalizing n with
  | zero => omega
  | succ f ih =>
    rw [natCharsAux]
    by_cases h10 : n < 10
    · rw [if_pos h10]
      simp [digitsVal, toNat_digitC n h10]
    · rw [if_neg h10]
      rw [digitsVal_append_digit, ih (n / 10) (by omega), toNat_digitC _ (Nat.mod_lt _ (by omega))]
      omega

theorem natCharsAux_head_ne_zero (fuel n : Nat) (h : n < fuel) (h1 : 1 ≤ n) :
    ∀ d ds, natCharsAux fuel n = d :: ds → d ≠ '0' := by
  induction fuel generalizing n with
  | zero => omega
  | succ f ih =>
    intro d ds hds
    rw [natCharsAux] at hds
    by_cases h10 : n < 10
    · rw [if_pos h10] at hds
      injection hds with hd hds2
      intro hcon
      have h1 : (digitC n).toNat = '0'.toNat := by rw [hd, hcon]
      have h48 : '0'.toNat = 48 := rfl
      rw [toNat_digitC n h10] at h1
      omega
    · rw [if_neg h10] at hds
      obtain ⟨e, es, hne⟩ := List.exists_cons_of_ne_nil (natCharsAux_ne_nil f (n / 10) (by omega))
      rw [hne, List.cons_append] at hds
      injection hds with hd hds2
      exact hd ▸ ih (n / 10) (by omega) (by omega) e es hne

theorem natChars_digits (n : Nat) : ∀ c ∈ natChars n, isDigitC c = true :=
  natCharsAux_digits (n + 1) n

theorem natChars_ne_nil (n : Nat) : natChars n ≠ [] :=
  natCharsAux_ne_nil (n + 1) n (by omega)

theorem digitsVal_natChars (n : Nat) : digitsVal (natChars n) = n :=
  digitsVal_natCharsAux (n + 1) n (by omega)

theorem natChars_head_ne_zero (n : Nat) (h1 : 1 ≤ n) :
    ∀ d ds, natChars n = d :: ds → d ≠ '0' :=
  natCharsAux_head_ne_zero (n + 1) n (by omega) h1

theorem takeDigits_digits (ds rest : List Char) (hds : ∀ c ∈ ds, isDigitC c = true)
    (hrest : numB rest = true) : takeDigits (ds ++ rest) = (ds, rest) := by
  induction ds with
  | nil =>
    cases rest with
    | nil => rfl
    | cons c cs =>
      simp only [numB, Bool.not_eq_true'] at hrest
      simp [takeDigits, hrest]
  | cons d ds2 ih =>
    have hd : isDigitC d = true := hds d (List.mem_cons_self _ _)
    have ih2 := ih (fun c hc => hds c (List.mem_cons_of_mem _ hc))
    simp only [List.cons_append, takeDigits, hd, if_true, List.append_eq, ih2]

theorem pPosNumber_natChars (n : Nat) (rest : List Char) (hrest : numB rest = true) :
    pPosNumber (natChars n ++ rest) = some (n, rest) := by
  obtain ⟨d, ds, hds⟩ := List.exists_cons_of_ne_nil (natChars_ne_nil n)
  rw [pPosNumber, takeDigits_digits _ _ (natChars_digits n) hrest]
  simp only [hds]
  have hval : digitsVal (d :: ds) = n := hds ▸ digitsVal_natChars n
  by_cases h10 : n < 10
  · have hsingle : ds = [] := by
      have : natChars n = [digitC n] := by
        rw [natChars, natCharsAux, if_pos h10]
      rw [this] at hds
      injection hds with h1 h2
      exact h2.symm
    subst hsingle
    simp [hval]
  · have hd0 : d ≠ '0' := natChars_head_ne_zero n (by omega) d ds hds
    simp [hd0, hval]

theorem headIs_ne {c d : Char} (s : List Char) (h : d ≠ c) : headIs c (d :: s) = false := by
  simp [headIs, h]

theorem pNumber_renderInt (i : Int) (rest : List Char) (hrest : numB rest = true) :
    pNumber (renderIntC i ++ rest) = some (i, rest) := by
  by_cases hneg : i < 0
  · rw [renderIntC, if_pos hneg, List.cons_append]
    have h2 : -(i.natAbs : Int) = i := by omega
    have hcalc : pNumber ('-' :: (natChars i.natAbs ++ rest)) =
        (pPosNumber (natChars i.natAbs ++ rest)).map fun p => (-(p.1 : Int), p.2) := by
      simp [pNumber, headIs]
    rw [hcalc, pPosNumber_natChars _ _ hrest]
    exact congrArg (fun z => some (z, rest)) h2
  · rw [renderIntC, if_neg hneg]
    obtain ⟨d, ds, hds⟩ := List.exists_cons_of_ne_nil (natChars_ne_nil i.natAbs)
    have hd : isDigitC d = true := by
      apply natChars_digits
      rw [hds]; exact List.mem_cons_self _ _
    have hdm : d ≠ '-' := by
      intro hcon
      rw [hcon] at hd
      simp only [isDigitC, decide_eq_true_eq] at hd
      have : '-'.toNat = 45 := rfl
      omega
    rw [pNumber, hds, List.cons_append, headIs_ne _ hdm, if_neg (by simp)]
    rw [← List.cons_append, ← hds, pPosNumber_natChars _ _ hrest]
    have h2 : (i.natAbs : Int) = i := by omega
    exact congrArg (fun z => some (z, rest)) h2

theorem hexVal_hexDigitC (n : Nat) (h : n < 16) : hexVal (hexDigitC n) = some n := by
  interval_cases n <;> rfl

theorem pStringBody_escapeChar (c : Char) (acc tail : List Char) :
    pStringBody acc (escapeChar c ++ tail) = pStringBody (c :: acc) tail := by
  by_cases h1 : c = '"'
  · subst h1; rw [show escapeChar '"' = ['\\', '"'] from rfl]
    rw [pStringBody.eq_def]; simp
  by_cases h2 : c = '\\'
  · subst h2; rw [show escapeChar '\\' = ['\\', '\\'] from rfl]
    rw [pStringBody.eq_def]; simp
  by_cases h3 : c = '\n'
  · subst h3; rw [show escapeChar '\n' = ['\\', 'n'] from rfl]
    rw [pStringBody.eq_def]; simp
  by_cases h4 : c = '\t'
  · subst h4; rw [show escapeChar '\t' = ['\\', 't'] from rfl]
    rw [pStringBody.eq_def]; simp
  by_cases h5 : c = '\r'
  · subst h5; rw [show escapeChar '\r' = ['\\', 'r'] from rfl]
    rw [pStringBody.eq_def]; simp
  by_cases h32 : c.toNat < 32
  · have hesc : escapeChar c =
        ['\\', 'u', '0', '0', hexDigitC (c.toNat / 16), hexDigitC (c.toNat % 16)] := by
      simp [escapeChar, h1, h2, h3, h4, h5, h32]
    have hhi : hexVal (hexDigitC (c.toNat / 16)) = some (c.toNat / 16) :=
      hexVal_hexDigitC _ (Nat.div_lt_of_lt_mul (by omega))
    have hlo : hexVal (hexDigitC (c.toNat % 16)) = some (c.toNat % 16) :=
      hexVal_hexDigitC _ (Nat.mod_lt _ (by omega))
    rw [hesc]
    rw [pStringBody.eq_def]
    simp only [List.cons_append, List.nil_append, hhi, hlo]
    norm_num
    rw [if_neg (by decide), if_neg (by decide), if_neg (by decide), if_neg (by decide),
        if_neg (by decide), if_neg (by decide), if_neg (by decide), if_neg (by decide)]
    show (if 55296 ≤ ((0 * 16 + 0) * 16 + c.toNat / 16) * 16 + c.toNat % 16 ∧
            ((0 * 16 + 0) * 16 + c.toNat / 16) * 16 + c.toNat % 16 < 57344 then none
          else
            pStringBody
              (Char.ofNat (((0 * 16 + 0) * 16 + c.toNat / 16) * 16 + c.toNat % 16) :: acc) tail)
        = pStringBody (c :: acc) tail
    rw [if_neg (by omega)]
    have hcode : ((0 * 16 + 0) * 16 + c.toNat / 16) * 16 + c.toNat % 16 = c.toNat := by omega
    rw [hcode, Char.ofNat_toNat]
  · have hesc : escapeChar c = [c] := by
      simp [escapeChar, h1, h2, h3, h4, h5, h32]
    rw [hesc]
    rw [pStringBody.eq_def]
    simp [h1, h2, h32]

theorem pStringBody_escBody (s : List Char) :
    ∀ (acc rest : List Char),
      pStringBody acc (escBody s ++ '"' :: rest) = some (String.mk (acc.reverse ++ s), rest) := by
  induction s with
  | nil =>
    intro acc rest
    rw [escBody, List.nil_append, pStringBody.eq_def]
    simp
  | cons c cs ih =>
    intro acc rest
    rw [escBody, List.append_assoc, pStringBody_escapeChar, ih (c :: acc) rest]
    simp [List.reverse_cons, List.append_assoc]

theorem pStringBody_renderStr (s : String) (rest : List Char) :
    pStringBody [] (escBody s.data ++ '"' :: rest) = some (s, rest) := by
  rw [pStringBody_escBody]
  rfl

theorem ne_of_toNat_ne {c d : Char} (h : c.toNat ≠ d.toNat) : c ≠ d :=
  fun e => h (congrArg Char.toNat e)

theorem isDigitC_bounds {c : Char} (h : isDigitC c = true) :
    48 ≤ c.toNat ∧ c.toNat ≤ 57 := by
  simpa [isDigitC] using h

theorem digit_head_facts {c : Char} (h : isDigitC c = true) :
    c ≠ 'n' ∧ c ≠ 't' ∧ c ≠ 'f' ∧ c ≠ '"' ∧ c ≠ '[' ∧ c ≠ lbraceC ∧ isWsC c = false ∧
      c ≠ ']' ∧ c ≠ ',' ∧ c ≠ rbraceC := by
  obtain ⟨hl, hr⟩ := isDigitC_bounds h
  refine ⟨ne_of_toNat_ne ?_, ne_of_toNat_ne ?_, ne_of_toNat_ne ?_, ne_of_toNat_ne ?_,
    ne_of_toNat_ne ?_, ne_of_toNat_ne ?_, ?_, ne_of_toNat_ne ?_, ne_of_toNat_ne ?_,
    ne_of_toNat_ne ?_⟩
  · have : 'n'.toNat = 110 := rfl
    omega
  · have : 't'.toNat = 116 := rfl
    omega
  · have : 'f'.toNat = 102 := rfl
    omega
  · have : '"'.toNat = 34 := rfl
    omega
  · have : '['.toNat = 91 := rfl
    omega
  · have : lbraceC.toNat = 123 := rfl
    omega
  · rw [isWsC]
    have h1 : (c = ' ') = False := by
      simp only [eq_iff_iff, iff_false]
      apply ne_of_toNat_ne
      have : ' '.toNat = 32 := rfl
      omega
    have h2 : (c = '\t') = False := by
      simp only [eq_iff_iff, iff_false]
      apply ne_of_toNat_ne
      have : '\t'.toNat = 9 := rfl
      omega
    have h3 : (c = '\n') = False := by
      simp only [eq_iff_iff, iff_false]
      apply ne_of_toNat_ne
      have : '\n'.toNat = 10 := rfl
      omega
    have h4 : (c = '\r') = False := by
      simp only [eq_iff_iff, iff_false]
      apply ne_of_toNat_ne
      have : '\r'.toNat = 13 := rfl
      omega
    simp [h1, h2, h3, h4]
  · have : ']'.toNat = 93 := rfl
    omega
  · have : ','.toNat = 44 := rfl
    omega
  · have : rbraceC.toNat = 125 := rfl
    omega

/-- The first character of any rendered JSON value is not whitespace, not a
closing bracket or brace, and not a comma: parsers positioned on a rendered
value therefore neither skip into it nor mistake it for a close delimiter. -/
theorem renderV_head (j : JVal) (ind : Nat) :
    ∃ c cs, renderV j ind = c :: cs ∧ isWsC c = false ∧ c ≠ ']' ∧ c ≠ ',' ∧ c ≠ rbraceC := by
  cases j with
  | null => exact ⟨'n', _, rfl, by decide, by decide, by decide, by decide⟩
  | bool b =>
    cases b with
    | true => exact ⟨'t', _, rfl, by decide, by decide, by decide, by decide⟩
    | false => exact ⟨'f', _, rfl, by decide, by decide, by decide, by decide⟩
  | num i =>
    by_cases hneg : i < 0
    · refine ⟨'-', natChars i.natAbs, ?_, by decide, by decide, by decide, by decide⟩
      rw [renderV, renderIntC, if_pos hneg]
    · obtain ⟨d, ds, hds⟩ := List.exists_cons_of_ne_nil (natChars_ne_nil i.natAbs)
      have hd : isDigitC d = true := by
        apply natChars_digits
        rw [hds]; exact List.mem_cons_self _ _
      obtain ⟨_, _, _, _, _, _, hws, hne1, hne2, hne3⟩ := digit_head_facts hd
      refine ⟨d, ds, ?_, hws, hne1, hne2, hne3⟩
      rw [renderV, renderIntC, if_neg hneg, hds]
  | str s =>
    exact ⟨'"', _, rfl, by decide, by decide, by decide, by decide⟩
  | arr xs =>
    cases xs with
    | nil => exact ⟨'[', _, rfl, by decide, by decide, by decide, by decide⟩
    | cons x xs2 => exact ⟨'[', _, rfl, by decide, by decide, by decide, by decide⟩
  | obj kvs =>
    cases kvs with
    | nil => exact ⟨lbraceC, _, rfl, by decide, by decide, by decide, by decide⟩
    | cons kv kvs2 => exact ⟨lbraceC, _, rfl, by decide, by decide, by decide, by decide⟩

theorem numB_renderItems (xs : List JVal) (ind : Nat) (t : List Char) :
    numB (renderItems xs ind ++ '\n' :: t) = true := by
  cases xs with
  | nil => rfl
  | cons x xs2 => rfl

theorem numB_renderFields (kvs : List (String × JVal)) (ind : Nat) (t : List Char) :
    numB (renderFields kvs ind ++ '\n' :: t) = true := by
  cases kvs with
  | nil => rfl
  | cons kv kvs2 => rfl

theorem rt_main : ∀ fuel : Nat,
    (∀ (j : JVal) (ind : Nat) (rest : List Char), sizeJ j ≤ fuel → numB rest = true →
      pVal fuel (renderV j ind ++ rest) = some (j, rest)) ∧
    (∀ (k : String) (v : JVal) (ind : Nat) (rest : List Char), sizeJ v + 1 ≤ fuel →
      numB rest = true →
      pField fuel (renderField (k, v) ind ++ rest) = some ((k, v), rest)) ∧
    (∀ (xs : List JVal) (ind m : Nat) (rest : List Char), sizeL xs ≤ fuel →
      pElems fuel (renderItems xs ind ++ '\n' :: (spacesC m ++ ']' :: rest)) = some (xs, rest)) ∧
    (∀ (kvs : List (String × JVal)) (ind m : Nat) (rest : List Char), sizeF kvs ≤ fuel →
      pFields fuel (renderFields kvs ind ++ '\n' :: (spacesC m ++ rbraceC :: rest)) =
        some (kvs, rest)) := by
  intro fuel
  induction fuel with
  | zero =>
    refine ⟨fun j ind rest hsz _ => ?_, fun k v ind rest hsz _ => ?_,
      fun xs ind m rest hsz => ?_, fun kvs ind m rest hsz => ?_⟩
    · exact absurd hsz (by have := sizeJ_pos j; omega)
    · exact absurd hsz (by omega)
    · exact absurd hsz (by have := sizeL_pos xs; omega)
    · exact absurd hsz (by have := sizeF_pos kvs; omega)
  | succ f ih =>
    obtain ⟨ihV, ihF, ihL, ihK⟩ := ih
    refine ⟨?_, ?_, ?_, ?_⟩
    · -- pVal
      intro j ind rest hsz hnb
      cases j with
      | null =>
        rw [pVal]
        simp [renderV, skipWs, isWsC]
      | bool b =>
        cases b with
        | true =>
          rw [pVal]
          simp [renderV, skipWs, isWsC]
        | false =>
          rw [pVal]
          simp [renderV, skipWs, isWsC]
      | num i =>
        have hrv : renderV (.num i) ind = renderIntC i := rfl
        by_cases hneg : i < 0
        · rw [hrv, renderIntC, if_pos hneg, List.cons_append, pVal]
          rw [skipWs_cons_not_ws _ (by decide)]
          have hp := pNumber_renderInt i rest hnb
          rw [renderIntC, if_pos hneg, List.cons_append] at hp
          simp [hp, lbraceC]
        · obtain ⟨d, ds, hds⟩ := List.exists_cons_of_ne_nil (natChars_ne_nil i.natAbs)
          have hd : isDigitC d = true := by
            apply natChars_digits
            rw [hds]; exact List.mem_cons_self _ _
          obtain ⟨hn1, hn2, hn3, hn4, hn5, hn6, hws, hx1, hx2, hx3⟩ := digit_head_facts hd
          rw [hrv, renderIntC, if_neg hneg, hds, List.cons_append, pVal]
          rw [skipWs_cons_not_ws _ hws]
          have hp := pNumber_renderInt i rest hnb
          rw [renderIntC, if_neg hneg, hds, List.cons_append] at hp
          simp [hp, hn1, hn2, hn3, hn4, hn5, hn6, hd]
      | str s =>
        rw [show renderV (.str s) ind = '"' :: (escBody s.data ++ ['"']) from rfl,
            List.cons_append, pVal]
        rw [skipWs_cons_not_ws _ (by decide)]
        have hshape : (escBody s.data ++ ['"']) ++ rest = escBody s.data ++ '"' :: rest := by
          simp [List.append_assoc]
        rw [hshape]
        simp [pStringBody_renderStr s rest]
      | arr xs =>
        cases xs with
        | nil =>
          rw [show renderV (.arr []) ind = ['[', ']'] from rfl]
          rw [List.cons_append, pVal]
          rw [skipWs_cons_not_ws _ (by decide)]
          simp [skipWs, isWsC, headIs, lbraceC]
        | cons x xs2 =>
          obtain ⟨c0, cs0, hc0, hws0, hne0, hne0b, hne0c⟩ := renderV_head x (ind + 2)
          have hszx : sizeJ x ≤ f := by
            simp only [sizeJ, sizeL] at hsz; omega
          have hszl : sizeL xs2 ≤ f := by
            simp only [sizeJ, sizeL] at hsz; omega
          have hR := ihV x (ind + 2)
            (renderItems xs2 (ind + 2) ++ '\n' :: (spacesC ind ++ ']' :: rest)) hszx
            (numB_renderItems _ _ _)
          have hE := ihL xs2 (ind + 2) ind rest hszl
          rw [show renderV (.arr (x :: xs2)) ind =
              '[' :: '\n' :: (spacesC (ind + 2) ++ renderV x (ind + 2) ++
                renderItems xs2 (ind + 2) ++ '\n' :: (spacesC ind ++ [']'])) from rfl]
          rw [List.cons_append, List.cons_append, pVal]
          rw [skipWs_cons_not_ws _ (by decide)]
          simp only [List.append_assoc, List.cons_append, List.singleton_append] at hR hE ⊢
          simp only [skipWs_nl, skipWs_spaces]
          rw [hc0] at hR ⊢
          simp only [List.cons_append] at hR ⊢
          rw [skipWs_cons_not_ws _ hws0]
          simp [headIs, hne0, hR, hE, lbraceC]
      | obj kvs =>
        cases kvs with
        | nil =>
          rw [show renderV (.obj []) ind = [lbraceC, rbraceC] from rfl]
          rw [List.cons_append, pVal]
          rw [skipWs_cons_not_ws _ (by decide)]
          simp [skipWs, isWsC, headIs, lbraceC, rbraceC]
        | cons kv kvs2 =>
          obtain ⟨k, v⟩ := kv
          have hszv : sizeJ v + 1 ≤ f := by
            simp only [sizeJ, sizeF] at hsz; omega
          have hszk : sizeF kvs2 ≤ f := by
            simp only [sizeJ, sizeF] at hsz; omega
          have hF := ihF k v (ind + 2)
            (renderFields kvs2 (ind + 2) ++ '\n' :: (spacesC ind ++ rbraceC :: rest)) hszv
            (numB_renderFields _ _ _)
          have hK := ihK kvs2 (ind + 2) ind rest hszk
          rw [show renderV (.obj ((k, v) :: kvs2)) ind =
              lbraceC :: '\n' :: (spacesC (ind + 2) ++ renderField (k, v) (ind + 2) ++
                renderFields kvs2 (ind + 2) ++ '\n' :: (spacesC ind ++ [rbraceC])) from rfl]
          rw [List.cons_append, List.cons_append, pVal]
          rw [skipWs_cons_not_ws _ (by decide)]
          simp only [List.append_assoc, List.cons_append, List.singleton_append] at hF hK ⊢
          simp only [skipWs_nl, skipWs_spaces]
          simp only [renderField, renderStrC, List.cons_append, List.append_assoc] at hF ⊢
          rw [skipWs_cons_not_ws _ (by decide)]
          simp only [List.nil_append] at hF
          simp [headIs, hF, hK, (show ('"' : Char) ≠ rbraceC from by decide), lbraceC]
    · -- pField
      intro k v ind rest hsz hnb
      have hszv : sizeJ v ≤ f := by omega
      obtain ⟨c0, cs0, hc0, hws0, hx1, hx2, hx3⟩ := renderV_head v ind
      have hV := ihV v ind rest hszv hnb
      have hV2 : pVal f (' ' :: (renderV v ind ++ rest)) = some (v, rest) := by
        rw [pVal_skipWs]
        have h1 : skipWs (' ' :: (renderV v ind ++ rest)) = renderV v ind ++ rest := by
          have h2 : skipWs (' ' :: (renderV v ind ++ rest)) = skipWs (renderV v ind ++ rest) := by
            simp [skipWs, isWsC]
          rw [h2, hc0, List.cons_append, skipWs_cons_not_ws _ hws0, ← List.cons_append, ← hc0]
        rw [h1]
        exact hV
      simp only [renderField, renderStrC, List.cons_append, List.append_assoc,
        List.singleton_append, List.nil_append]
      rw [pField]
      simp [pStringBody_renderStr, headIs, hV2,
        skipWs_cons_not_ws _ (show isWsC ':' = false from by decide)]
    · -- pElems
      intro xs ind m rest hsz
      cases xs with
      | nil =>
        rw [show renderItems ([] : List JVal) ind = [] from rfl, List.nil_append, pElems]
        rw [skipWs_nl, skipWs_spaces]
        rw [skipWs_cons_not_ws _ (by decide)]
        simp [headIs]
      | cons x xs2 =>
        obtain ⟨c0, cs0, hc0, hws0, hne0, hne0b, hne0c⟩ := renderV_head x ind
        have hszx : sizeJ x ≤ f := by
          simp only [sizeL] at hsz; omega
        have hszl : sizeL xs2 ≤ f := by
          simp only [sizeL] at hsz; omega
        have hE := ihL xs2 ind m rest hszl
        have hV2 : pVal f ('\n' :: ((spacesC ind ++ renderV x ind ++ renderItems xs2 ind) ++
              '\n' :: (spacesC m ++ ']' :: rest))) =
            some (x, renderItems xs2 ind ++ '\n' :: (spacesC m ++ ']' :: rest)) := by
          rw [pVal_skipWs, skipWs_nl]
          simp only [List.append_assoc]
          rw [skipWs_spaces, hc0, List.cons_append, skipWs_cons_not_ws _ hws0,
            ← List.cons_append, ← hc0]
          exact ihV x ind _ hszx (numB_renderItems _ _ _)
        simp only [List.append_assoc] at hV2
        rw [show renderItems (x :: xs2) ind =
            ',' :: '\n' :: (spacesC ind ++ renderV x ind ++ renderItems xs2 ind) from rfl]
        rw [List.cons_append, List.cons_append, pElems]
        rw [skipWs_cons_not_ws _ (by decide)]
        simp [headIs, hV2, hE]
    · -- pFields
      intro kvs ind m rest hsz
      cases kvs with
      | nil =>
        rw [show renderFields ([] : List (String × JVal)) ind = [] from rfl,
          List.nil_append, pFields]
        rw [skipWs_nl, skipWs_spaces]
        rw [skipWs_cons_not_ws _ (by decide)]
        simp [headIs, (show rbraceC ≠ ',' from by decide)]
      | cons kv kvs2 =>
        obtain ⟨k, v⟩ := kv
        have hszv : sizeJ v + 1 ≤ f := by
          have := sizeF_pos kvs2
          simp only [sizeF] at hsz; omega
        have hszk : sizeF kvs2 ≤ f := by
          simp only [sizeF] at hsz; omega
        have hK := ihK kvs2 ind m rest hszk
        have hF := ihF k v ind
          (renderFields kvs2 ind ++ '\n' :: (spacesC m ++ rbraceC :: rest)) hszv
          (numB_renderFields _ _ _)
        have hF2 : pField f (skipWs ('\n' :: ((spacesC ind ++ renderField (k, v) ind ++
              renderFields kvs2 ind) ++ '\n' :: (spacesC m ++ rbraceC :: rest)))) =
            some ((k, v), renderFields kvs2 ind ++ '\n' :: (spacesC m ++ rbraceC :: rest)) := by
          rw [skipWs_nl]
          simp only [List.append_assoc]
          rw [skipWs_spaces]
          have hhead : skipWs (renderField (k, v) ind ++ (renderFields kvs2 ind ++
              '\n' :: (spacesC m ++ rbraceC :: rest))) = renderField (k, v) ind ++
              (renderFields kvs2 ind ++ '\n' :: (spacesC m ++ rbraceC :: rest)) := by
            simp only [renderField, renderStrC, List.cons_append, List.append_assoc]
            rw [skipWs_cons_not_ws _ (by decide)]
          rw [hhead]
          simpa only [List.append_assoc] using hF
        simp only [List.append_assoc] at hF2
        rw [show renderFields ((k, v) :: kvs2) ind =
            ',' :: '\n' :: (spacesC ind ++ renderField (k, v) ind ++ renderFields kvs2 ind)
            from rfl]
        rw [List.cons_append, List.cons_append, pFields]
        rw [skipWs_cons_not_ws _ (by decide)]
        simp [headIs, hF2, hK, (show (',' : Char) ≠ rbraceC from by decide)]

mutual

theorem sizeJ_le_len : ∀ (j : JVal) (ind : Nat), sizeJ j ≤ (renderV j ind).length
  | .null, ind => by simp [sizeJ, renderV]
  | .bool true, ind => by simp [sizeJ, renderV]
  | .bool false, ind => by simp [sizeJ, renderV]
  | .num i, ind => by
    have hne := natChars_ne_nil i.natAbs
    have hpos : 0 < (natChars i.natAbs).length := List.length_pos.mpr hne
    simp only [sizeJ, renderV, renderIntC]
    by_cases h : i < 0
    · simp [h]
    · simp [h]
      omega
  | .str s, ind => by simp [sizeJ, renderV, renderStrC]
  | .arr [], ind => by simp [sizeJ, sizeL, renderV]
  | .arr (x :: xs), ind => by
    have h1 := sizeJ_le_len x (ind + 2)
    have h2 := sizeL_le_len xs (ind + 2)
    simp only [sizeJ, sizeL, renderV]
    simp [List.length_append, spacesC]
    omega
  | .obj [], ind => by simp [sizeJ, sizeF, renderV]
  | .obj ((k, v) :: kvs), ind => by
    have h1 := sizeJ_le_len v (ind + 2)
    have h2 := sizeF_le_len kvs (ind + 2)
    simp only [sizeJ, sizeF, renderV, renderField]
    simp [List.length_append, spacesC]
    omega

theorem sizeL_le_len : ∀ (xs : List JVal) (ind : Nat),
    sizeL xs ≤ (renderItems xs ind).length + 2
  | [], ind => by simp [sizeL, renderItems]
  | x :: xs, ind => by
    have h1 := sizeJ_le_len x ind
    have h2 := sizeL_le_len xs ind
    simp only [sizeL, renderItems]
    simp [List.length_append]
    omega

theorem sizeF_le_len : ∀ (kvs : List (String × JVal)) (ind : Nat),
    sizeF kvs ≤ (renderFields kvs ind).length + 2
  | [], ind => by simp [sizeF, renderFields]
  | (k, v) :: kvs, ind => by
    have h1 := sizeJ_le_len v ind
    have h2 := sizeF_le_len kvs ind
    simp only [sizeF, renderFields, renderField]
    simp [List.length_append]
    omega

end

/-- The JSON round trip of `src/ocr_processor.py` lines 200-205: parsing
the output of `json.dumps(·, indent=2)` recovers the original value. -/
theorem jsonLoads_jsonDumps (j : JVal) : jsonLoads (jsonDumps j) = some j := by
  have hsz : sizeJ j ≤ (renderV j 0).length + 1 :=
    le_trans (sizeJ_le_len j 0) (by omega)
  have hmain := (rt_main ((renderV j 0).length + 1)).1 j 0 [] hsz rfl
  rw [List.append_nil] at hmain
  show (match pVal ((renderV j 0).length + 1) (renderV j 0) with
        | some (j2, rest) => if skipWs rest = [] then some j2 else none
        | none => none) = some j
  rw [hmain]
  rfl

/-! ## The OCR processor (`src/ocr_processor.py`)

External effects — the filesystem, `cv2`, `pdf2image`, and the HTTP
endpoint — are modelled as a `World` of deterministic oracles; transient
on-disk files created by the pipeline are tracked in an explicit `FS`
state.  `_convert_to_short_path` (lines 21-30) is the identity off
Windows (`os.name != 'nt'`) and is modelled as such. -/

/-- The `"markdown"` instruction template (configuration text from the `prompts`
dict, lines 111-180 of `src/ocr_processor.py`). -/
def promptMarkdown : String :=
  "请分析提供的图片内容，并以 Markdown 格式输出提取的文本，要求如下：\n                - 使用简体中文输出所有文本内容。\n                - 根据图片中的视觉层级结构，使用标题（#、##、###）表示不同层级的标题和章节。\n                - 使用列表符号（-）表示列表，并保持原有的列表结构。\n                - 对需要强调的内容使用 Markdown 格式（如加粗、斜体等）。\n                - 如果图片中包含表格，请使用 Markdown 表格格式表示。\n                - 尽可能保留图片中的文本层级、布局和格式。\n                - 确保所有可见文本都被提取，包括部分被遮挡或旋转的文本。"

/-- The `"text"` instruction template (configuration text from the `prompts`
dict, lines 111-180 of `src/ocr_processor.py`). -/
def promptText : String :=
  "请从提供的图片中提取所有可见文本，并以纯文本格式输出，要求如下：\n                - 使用简体中文输出所有文本内容。\n                - 尽可能保持原始的文本布局和换行格式。\n                - 包括所有可见文本，即使部分文本被遮挡、旋转或使用非标准字体。\n                - 不需要任何格式化或元数据，仅输出纯文本内容。\n                - 确保提取的文本清晰、准确，避免 OCR 错误。"

/-- The `"json"` instruction template (configuration text from the `prompts`
dict, lines 111-180 of `src/ocr_processor.py`). -/
def promptJson : String :=
  "请从提供的图片中提取所有可见文本，并以 JSON 格式输出，要求如下：\n                - 使用简体中文输出所有文本内容。\n                - 将文本分组为逻辑部分（如标题、正文、页脚等），并使用描述性键名（如 \"标题\"、\"正文\"、\"段落\"、\"表格\"、\"列表\"）表示。\n                - 保留内容的层级结构，反映图片中的视觉布局。\n                - 如果图片中包含表格，请将其表示为嵌套数组，按行和列组织数据。\n                - 确保 JSON 格式正确且缩进清晰，便于阅读。\n                - 包括所有可见文本，即使部分文本被遮挡或旋转。\n                - 如果图片中包含无法识别的内容，请标注为 `\"无法识别\"`。\n                - 示例输出格式：\n                ```json\n                \x7b\n                  \"标题\": \"这是标题\",\n                  \"正文\": \"这是正文内容\",\n                  \"表格\": [\n                    [\"列1\", \"列2\", \"列3\"],\n                    [\"数据1\", \"数据2\", \"数据3\"]\n                  ],\n                  \"列表\": [\"项目1\", \"项目2\", \"项目3\"]\n                \x7d\n                "

/-- The `"structured"` instruction template (configuration text from the `prompts`
dict, lines 111-180 of `src/ocr_processor.py`). -/
def promptStructured : String :=
  "请从提供的图片中提取所有可见文本，并以结构化格式输出，要求如下：\n                - 使用简体中文输出所有文本内容。\n                - 识别并格式化表格，保留表格中的行和列结构。\n                - 提取有序或无序列表，并保持其嵌套层级。\n                - 保留图片中的层级关系（如标题、子标题、段落等），并使用清晰的标签或缩进表示。\n                - 包括所有可见文本，即使部分文本被遮挡或旋转。\n                - 确保输出内容清晰、有条理，并尽量反映原始图片的视觉结构。\n                - 如果图片中包含无法识别的内容，请标注为 `[无法识别]`。\n                - 示例输出格式：\n                标题: 这是标题\n                正文: 这是正文内容\n                表格:\n\n                行1: 列1, 列2, 列3\n                行2: 数据1, 数据2, 数据3\n                列表:\n                项目1\n                项目2\n                项目3\n                "

/-- The `"key_value"` instruction template (configuration text from the `prompts`
dict, lines 111-180 of `src/ocr_processor.py`). -/
def promptKeyValue : String :=
  "请从提供的图片中提取所有以键值对形式出现的文本，并以键值对格式输出，要求如下：\n                - 使用简体中文输出所有文本内容。\n                - 识别标签（键）及其对应的值，即使它们在视觉上分离。\n                - 提取表单字段及其内容，保留字段名称与值之间的对应关系。\n                - 每个键值对以 \"键: 值\" 的格式输出，每行一个键值对。\n                - 如果一个键对应多个值，请将值以逗号分隔的形式输出。\n                - 包括所有可见的键值对，即使部分内容被遮挡或旋转。\n                - 如果图片中包含无法识别的内容，请标注为 `[无法识别]`。\n                - 示例输出格式：\n                "
/-- `prompts.get(format_type, prompts["text"])` (line 183): the template
bound to the format, falling back to the `"text"` template for any
other value. -/
def promptFor (format_type : String) : String :=
  if format_type = "markdown" then promptMarkdown
  else if format_type = "text" then promptText
  else if format_type = "json" then promptJson
  else if format_type = "structured" then promptStructured
  else if format_type = "key_value" then promptKeyValue
  else promptText

/-- A decoded in-memory pixel buffer (the result of `cv2.imdecode`). -/
abbrev Image := List (List Nat)

/-- The request body of lines 186-191: model name, instruction text,
`stream: false`, and one base64 image string. -/
structure Payload where
  model : String
  prompt : String
  stream : Bool
  images : List String

/-- Deterministic oracles for every external effect the processor calls.
`post url payload` models `requests.post` returning either a connection
error (`Except.error`) or a status code together with the `"response"`
field of the reply body (`response.json().get("response", "")`,
line 197).  `cvtGray`, `clahe` (clip limit 2.0, 8×8 tiles) and
`nlmDenoise` stand for the fixed-parameter OpenCV calls of lines 78-85,
whose native pixel arithmetic is outside the embedding. -/
structure World where
  isDir : String → Bool
  dirEntries : String → List String
  readBytes : String → Option (List Nat)
  imdecode : List Nat → Option Image
  pdfPages : String → Except String (List Image)
  pageJpg : Image → List Nat
  cvtGray : Image → Image
  clahe : Image → Image
  nlmDenoise : Image → Image
  imwriteJpg : Image → List Nat
  post : String → Payload → Except String (Nat × String)

/-- On-disk transient state: a counter for fresh temporary names and the
transient files currently on disk (name, bytes). -/
structure FS where
  ctr : Nat
  files : List (String × List Nat)

/-- The empty starting filesystem state. -/
def fs0 : FS := ⟨0, []⟩

/-- The name generated for the `n`-th `tempfile.NamedTemporaryFile`
call with `suffix=".jpg"`. -/
def tempName (n : Nat) : String := "/tmp/tmp" ++ toString n ++ ".jpg"

/-- `tempfile.NamedTemporaryFile(suffix=".jpg", delete=False)` (lines 69
and 88): creates an empty file under a fresh generated name and keeps it
on disk after closing. -/
def newTemp (fs : FS) : String × FS :=
  (tempName fs.ctr, ⟨fs.ctr + 1, fs.files ++ [(tempName fs.ctr, [])]⟩)

/-- Overwrite the named transient file's bytes. -/
def writeFile (fs : FS) (p : String) (bs : List Nat) : FS :=
  ⟨fs.ctr, fs.files.map (fun kv => if kv.1 = p then (p, bs) else kv)⟩

/-- `os.remove` (line 108) on a transient file. -/
def removeFile (fs : FS) (p : String) : FS :=
  ⟨fs.ctr, fs.files.filter (fun kv => kv.1 != p)⟩

/-- Lookup of a transient file's bytes by name. -/
def fsLookup : List (String × List Nat) → String → Option (List Nat)
  | [], _ => none
  | (k, v) :: t, p => if k = p then some v else fsLookup t p

/-- `open(path, "rb").read()`: transient files shadow the pre-existing
world files. -/
def readFileBytes (w : World) (fs : FS) (p : String) : Option (List Nat) :=
  match fsLookup fs.files p with
  | some bs => some bs
  | none => w.readBytes p

/-- Model of `str.endswith`, by character list (kernel-reducible, unlike
the byte-position-based `String.endsWith`). -/
def strEndsWith (s pat : String) : Bool :=
  decide (s.data.reverse.take pat.data.length = pat.data.reverse)

/-- Model of `str.lower` (ASCII case folding, which is all the paths
handled here exercise). -/
def strToLower (s : String) : String := String.mk (s.data.map Char.toLower)

/-- The `OCRProcessor.__init__` configuration (lines 16-19). -/
structure OCRProcessor where
  model_name : String := "llama3.2-vision:11b"
  base_url : String := "http://localhost:11434/api/generate"
  max_workers : Nat := 1

/-- `_read_image` (lines 32-47): read the file's bytes and decode them
with `cv2.imdecode`; a `None` decode raises
`ValueError("无法读取图片文件: ...")`, and any exception is re-raised as
`RuntimeError("读取图片失败: ..., 错误: ...")`. -/
def readImageE (w : World) (fs : FS) (image_path : String) : Except String Image :=
  match readFileBytes w fs image_path with
  | none => .error ("读取图片失败: " ++ image_path ++
      ", 错误: [Errno 2] No such file or directory: " ++ image_path)
  | some bs =>
      match w.imdecode bs with
      | none => .error ("读取图片失败: " ++ image_path ++
          ", 错误: 无法读取图片文件: " ++ image_path)
      | some img => .ok img

/-- The tail of `_preprocess_image` after PDF normalization (lines
74-92): decode, grayscale, CLAHE, denoise, then write the result to a
fresh `NamedTemporaryFile` and return that file's path.  Errors are
wrapped as `RuntimeError("预处理图片时出错: ..., 错误: ...")` by the
surrounding `try` (lines 93-94); the wrap uses the current value of
`image_path`, i.e. the temp page path when the input was a PDF. -/
def preprocessRest (w : World) (fs : FS) (image_path : String) :
    Except String String × FS :=
  match readImageE w fs image_path with
  | .error e => (.error ("预处理图片时出错: " ++ image_path ++ ", 错误: " ++ e), fs)
  | .ok image =>
      let gray := w.cvtGray image
      let enhanced := w.clahe gray
      let denoised := w.nlmDenoise enhanced
      let tf := newTemp fs
      let fs2 := writeFile tf.2 tf.1 (w.imwriteJpg denoised)
      (.ok tf.1, fs2)

/-- `_preprocess_image` (lines 54-94).  A path ending in `.pdf`
(case-insensitive, line 64) is rendered with `convert_from_path`; an
empty page list raises `ValueError("无法将 PDF 转换为图片")`; otherwise the
first page is saved as a JPEG under a fresh `NamedTemporaryFile` name and
processing continues on that file.  Files created before a later failure
remain on disk. -/
def preprocessImageE (w : World) (fs : FS) (image_path : String) :
    Except String String × FS :=
  if strEndsWith (strToLower image_path) ".pdf" then
    match w.pdfPages image_path with
    | .error e => (.error ("预处理图片时出错: " ++ image_path ++ ", 错误: " ++ e), fs)
    | .ok [] => (.error ("预处理图片时出错: " ++ image_path ++
        ", 错误: 无法将 PDF 转换为图片"), fs)
    | .ok (pg :: _) =>
        let tf := newTemp fs
        let fs2 := writeFile tf.2 tf.1 (w.pageJpg pg)
        preprocessRest w fs2 tf.1
  else preprocessRest w fs image_path

/-- The JSON post-processing of lines 199-207: for `format_type = "json"`
try `json.loads` and re-serialize with `json.dumps(·, indent=2)`; if
parsing fails return the raw text unchanged; other formats return the
text as is. -/
def postProcess (format_type result : String) : String :=
  if format_type = "json" then
    match jsonLoads result with
    | some j => jsonDumps j
    | none => result
  else result

/-- `process_image` (lines 96-209), statement by statement: optional
preprocessing, base64 encoding of the (possibly temporary) file, the
suffix-matched temp cleanup of lines 106-108, prompt selection, the
POST of lines 193-195 with `raise_for_status` (4xx/5xx raises), and the
JSON post-processing — all inside one `try` whose `except` (lines
208-209) converts any exception `e` into the string
`"处理图片时出错: " ++ str(e)`. -/
def processImage (cfg : OCRProcessor) (w : World) (fs : FS) (image_path : String)
    (format_type : String) (preprocess : Bool) : String × FS :=
  let pre := if preprocess then preprocessImageE w fs image_path else (.ok image_path, fs)
  match pre with
  | (.error e, fs2) => ("处理图片时出错: " ++ e, fs2)
  | (.ok ipath, fs2) =>
      match readFileBytes w fs2 ipath with
      | none => ("处理图片时出错: " ++ ("[Errno 2] No such file or directory: " ++ ipath), fs2)
      | some bs =>
          let image_base64 := String.mk (b64encode bs)
          let fs3 := if strEndsWith ipath "_preprocessed.jpg" || strEndsWith ipath "_temp.jpg" then
              removeFile fs2 ipath
            else fs2
          let payload : Payload :=
            { model := cfg.model_name, prompt := promptFor format_type, stream := false,
              images := [image_base64] }
          match w.post cfg.base_url payload with
          | .error e => ("处理图片时出错: " ++ e, fs3)
          | .ok (status, text) =>
              if 400 ≤ status then
                ("处理图片时出错: " ++ (toString status ++ " Error for url: " ++ cfg.base_url), fs3)
              else
                (postProcess format_type text, fs3)

/-- The body of `process_image`'s `try` block (lines 100-207) as a
fallible pipeline: identical staging to `processImage` but returning the
failure as an `Except.error` instead of the caught-and-formatted string.
Relating the two is exactly the content of the `except` clause at lines
208-209. -/
def pipelineE (cfg : OCRProcessor) (w : World) (fs : FS) (image_path : String)
    (format_type : String) (preprocess : Bool) : Except String String × FS :=
  let pre := if preprocess then preprocessImageE w fs image_path else (.ok image_path, fs)
  match pre with
  | (.error e, fs2) => (.error e, fs2)
  | (.ok ipath, fs2) =>
      match readFileBytes w fs2 ipath with
      | none => (.error ("[Errno 2] No such file or directory: " ++ ipath), fs2)
      | some bs =>
          let image_base64 := String.mk (b64encode bs)
          let fs3 := if strEndsWith ipath "_preprocessed.jpg" || strEndsWith ipath "_temp.jpg" then
              removeFile fs2 ipath
            else fs2
          let payload : Payload :=
            { model := cfg.model_name, prompt := promptFor format_type, stream := false,
              images := [image_base64] }
          match w.post cfg.base_url payload with
          | .error e => (.error e, fs3)
          | .ok (status, text) =>
              if 400 ≤ status then
                (.error (toString status ++ " Error for url: " ++ cfg.base_url), fs3)
              else
                (.ok (postProcess format_type text), fs3)

/-! ## `process_batch` (lines 211-261) -/

/-- The `input_path : Union[str, List[str]]` argument of `process_batch`. -/
inductive BatchInput where
  | single : String → BatchInput
  | list : List String → BatchInput

/-- The extension list of line 227. -/
def supportedExts : List String := [".png", ".jpg", ".jpeg", ".pdf", ".tiff"]

/-- Does a relative entry name contain a path separator (i.e. live in a
subdirectory)? -/
def hasSlash (e : String) : Bool := e.data.contains '/'

/-- `base_path.glob(f"{pattern}{ext}")` (lines 226-228) over a modelled
directory listing: `pattern` is `**/*` when `recursive` else `*`, so an
entry matches when its name ends with `ext` and, in the non-recursive
case, contains no separator.  Matches are returned as
`str(path) = base ++ "/" ++ entry`. -/
def globExt (w : World) (base : String) (recursive : Bool) (ext : String) : List String :=
  ((w.dirEntries base).filter
    (fun e => (recursive || !hasSlash e) && strEndsWith e ext)).map (fun e => base ++ "/" ++ e)

/-- Path discovery (lines 221-232): a directory is scanned per supported
extension; any other single string is used verbatim as one path; an
explicit list is used verbatim.  `str(Path(p))` is modelled as the
identity (pathlib's textual normalization of `.` segments and duplicate
separators is not modelled). -/
def discover (w : World) (input_path : BatchInput) (recursive : Bool) : List String :=
  match input_path with
  | .single s =>
      if w.isDir s then
        supportedExts.foldl (fun acc ext => acc ++ globExt w s recursive ext) []
      else [s]
  | .list ps => ps

/-- The aggregate returned at lines 253-261: the `results` and `errors`
dicts and the `statistics` entries (`total`, `successful`, `failed`),
flattened into one structure. -/
structure BatchReport where
  results : Dict
  errors : Dict
  total : Nat
  successful : Nat
  failed : Nat

/-- The collection loop of lines 238-251.  One `process_image` call is
submitted per discovered path (one future per list element, duplicates
included) and each completed future's value is recorded under
`str(path)`.  The `except` branch that would write `errors` is
unreachable: `process_image` catches every exception (lines 208-209), so
`future.result()` never raises.  The loop is modelled sequentially: the
mappings and counts proved about it do not depend on completion order,
since each element writes exactly one key and the world's oracles are
deterministic. -/
def runItems (cfg : OCRProcessor) (w : World) :
    FS → List String → String → Bool → Dict → Dict → Dict × Dict × FS
  | fs, [], _, _, results, errors => (results, errors, fs)
  | fs, p :: ps, ft, pre, results, errors =>
      let r := processImage cfg w fs p ft pre
      runItems cfg w r.2 ps ft pre (dinsert results p r.1) errors

/-- `process_batch` (lines 211-261): discovery, dispatch, collection and
the summary statistics `total = len(image_paths)`,
`successful = len(results)`, `failed = len(errors)`. -/
def processBatch (cfg : OCRProcessor) (w : World) (fs : FS) (input_path : BatchInput)
    (format_type : String) (recursive : Bool) (preprocess : Bool) : BatchReport :=
  let image_paths := discover w input_path recursive
  let out := runItems cfg w fs image_paths format_type preprocess [] []
  { results := out.1, errors := out.2.1,
    total := image_paths.length, successful := out.1.length, failed := out.2.1.length }

/-! ## Batch collection lemmas -/

theorem runItems_errors (cfg : OCRProcessor) (w : World) (ps : List String)
    (ft : String) (pre : Bool) :
    ∀ (fs : FS) (results errors : Dict),
      (runItems cfg w fs ps ft pre results errors).2.1 = errors := by
  induction ps with
  | nil => intro fs results errors; rfl
  | cons p ps2 ih =>
    intro fs results errors
    rw [runItems]
    exact ih _ _ _

theorem runItems_mem_keys (cfg : OCRProcessor) (w : World) (ps : List String)
    (ft : String) (pre : Bool) :
    ∀ (fs : FS) (results errors : Dict) (k : String),
      k ∈ dkeys (runItems cfg w fs ps ft pre results errors).1 ↔
        k ∈ dkeys results ∨ k ∈ ps := by
  induction ps with
  | nil => intro fs results errors k; simp [runItems]
  | cons p ps2 ih =>
    intro fs results errors k
    rw [runItems, ih]
    rw [mem_dkeys_dinsert]
    constructor
    · rintro ((h | h) | h)
      · exact Or.inl h
      · exact Or.inr (h ▸ List.mem_cons_self _ _)
      · exact Or.inr (List.mem_cons_of_mem _ h)
    · rintro (h | h)
      · exact Or.inl (Or.inl h)
      · rcases List.mem_cons.mp h with h2 | h2
        · exact Or.inl (Or.inr h2)
        · exact Or.inr h2

theorem runItems_nodup_keys (cfg : OCRProcessor) (w : World) (ps : List String)
    (ft : String) (pre : Bool) :
    ∀ (fs : FS) (results errors : Dict), (dkeys results).Nodup →
      (dkeys (runItems cfg w fs ps ft pre results errors).1).Nodup := by
  induction ps with
  | nil => intro fs results errors h; exact h
  | cons p ps2 ih =>
    intro fs results errors h
    rw [runItems]
    exact ih _ _ _ (nodup_dkeys_dinsert _ _ _ h)

theorem runItems_length_nodup (cfg : OCRProcessor) (w : World) (ps : List String)
    (ft : String) (pre : Bool) :
    ∀ (fs : FS) (results errors : Dict), ps.Nodup → (∀ p ∈ ps, p ∉ dkeys results) →
      (runItems cfg w fs ps ft pre results errors).1.length = results.length + ps.length := by
  induction ps with
  | nil => intro fs results errors _ _; simp [runItems]
  | cons p ps2 ih =>
    intro fs results errors hnd hdisj
    rw [runItems]
    have hp : p ∉ dkeys results := hdisj p (List.mem_cons_self _ _)
    have hlen : (dinsert results p (processImage cfg w fs p ft pre).1).length =
        results.length + 1 := by
      rw [length_dinsert, if_neg hp]
    rw [ih _ _ _ (List.Nodup.of_cons hnd) ?_, hlen]
    · simp [List.length_cons]
      omega
    · intro q hq
      rw [mem_dkeys_dinsert]
      rintro (h | h)
      · exact hdisj q (List.mem_cons_of_mem _ hq) h
      · subst h
        exact (List.nodup_cons.mp hnd).1 hq

theorem runItems_length_le (cfg : OCRProcessor) (w : World) (ps : List String)
    (ft : String) (pre : Bool) :
    ∀ (fs : FS) (results errors : Dict),
      (runItems cfg w fs ps ft pre results errors).1.length ≤ results.length + ps.length := by
  induction ps with
  | nil => intro fs results errors; simp [runItems]
  | cons p ps2 ih =>
    intro fs results errors
    rw [runItems]
    have := ih (processImage cfg w fs p ft pre).2
      (dinsert results p (processImage cfg w fs p ft pre).1) errors
    have hlen := length_dinsert results p (processImage cfg w fs p ft pre).1
    by_cases hp : p ∈ dkeys results
    · rw [if_pos hp] at hlen
      rw [hlen] at this
      simp [List.length_cons]
      omega
    · rw [if_neg hp] at hlen
      rw [hlen] at this
      simp [List.length_cons]
      omega

theorem runItems_length_lt_of_dup (cfg : OCRProcessor) (w : World) (ps : List String)
    (ft : String) (pre : Bool) :
    ∀ (fs : FS) (results errors : Dict),
      (¬ ps.Nodup ∨ ∃ p ∈ ps, p ∈ dkeys results) →
      (runItems cfg w fs ps ft pre results errors).1.length < results.length + ps.length := by
  induction ps with
  | nil =>
    intro fs results errors h
    rcases h with h | ⟨p, hp, _⟩
    · exact absurd List.nodup_nil h
    · exact absurd hp (List.not_mem_nil p)
  | cons p ps2 ih =>
    intro fs results errors h
    rw [runItems]
    have hlen := length_dinsert results p (processImage cfg w fs p ft pre).1
    by_cases hp : p ∈ dkeys results
    · rw [if_pos hp] at hlen
      have hle := runItems_length_le cfg w ps2 ft pre (processImage cfg w fs p ft pre).2
        (dinsert results p (processImage cfg w fs p ft pre).1) errors
      rw [hlen] at hle
      simp [List.length_cons]
      omega
    · rw [if_neg hp] at hlen
      have hrec : ¬ ps2.Nodup ∨ ∃ q ∈ ps2,
          q ∈ dkeys (dinsert results p (processImage cfg w fs p ft pre).1) := by
        rcases h with h | ⟨q, hq, hqm⟩
        · rw [List.nodup_cons] at h
          push_neg at h
          by_cases hmem : p ∈ ps2
          · exact Or.inr ⟨p, hmem, by rw [mem_dkeys_dinsert]; exact Or.inr rfl⟩
          · exact Or.inl (h hmem)
        · rcases List.mem_cons.mp hq with h2 | h2
          · exact absurd (h2 ▸ hqm) hp
          · exact Or.inr ⟨q, h2, by rw [mem_dkeys_dinsert]; exact Or.inl hqm⟩
      have := ih (processImage cfg w fs p ft pre).2
        (dinsert results p (processImage cfg w fs p ft pre).1) errors hrec
      rw [hlen] at this
      simp [List.length_cons]
      omega

theorem runItems_values (cfg : OCRProcessor) (w : World) (ps : List String)
    (ft : String) (pre : Bool) (P : String → Prop)
    (hall : ∀ (fs : FS) (p : String), P (processImage cfg w fs p ft pre).1) :
    ∀ (fs : FS) (results errors : Dict), (∀ kv ∈ results, P kv.2) →
      ∀ kv ∈ (runItems cfg w fs ps ft pre results errors).1, P kv.2 := by
  induction ps with
  | nil => intro fs results errors hres kv hkv; exact hres kv hkv
  | cons p ps2 ih =>
    intro fs results errors hres kv hkv
    rw [runItems] at hkv
    refine ih _ _ _ ?_ kv hkv
    intro kv2 hkv2
    rcases mem_of_dinsert_mem _ _ _ _ hkv2 with h | h
    · exact hres kv2 h
    · rw [h]
      exact hall fs p

/-! ## Concrete worlds used in witnesses and counterexamples -/

/-- A world in which every call succeeds: any path reads as one byte,
decoding and rendering succeed, and the endpoint answers 200 with body
text `"ok"`. -/
def wOk : World :=
  { isDir := fun _ => false
    dirEntries := fun _ => []
    readBytes := fun _ => some [0]
    imdecode := fun _ => some [[0]]
    pdfPages := fun _ => .ok [[[0]]]
    pageJpg := fun _ => [0]
    cvtGray := fun i => i
    clahe := fun i => i
    nlmDenoise := fun i => i
    imwriteJpg := fun _ => [0]
    post := fun _ _ => .ok (200, "ok") }

/-- Scenario C of the spec: the endpoint answers HTTP 500 to every request. -/
def w500 : World := { wOk with post := fun _ _ => .ok (500, "") }

/-- C3: for every path, format and preprocess flag, `process_image`
returns a string and never raises: its value is the `try`-body pipeline's
result when that succeeds, and the failure-describing string
`"处理图片时出错: " ++ e` when the pipeline fails with exception text `e`;
the on-disk state is the pipeline's in either case. -/
theorem c3_process_image_total_catches_all (cfg : OCRProcessor) (w : World) (fs : FS)
    (image_path format_type : String) (preprocess : Bool) :
    processImage cfg w fs image_path format_type preprocess =
      ((match (pipelineE cfg w fs image_path format_type preprocess).1 with
        | .ok s => s
        | .error e => "处理图片时出错: " ++ e),
       (pipelineE cfg w fs image_path format_type preprocess).2) := by
  unfold processImage pipelineE
  rcases hpre : (if preprocess then preprocessImageE w fs image_path
      else (Except.ok image_path, fs)) with ⟨r, fs2⟩
  cases r with
  | error e => rfl
  | ok ipath =>
    rcases hrd : readFileBytes w fs2 ipath with _ | bs
    · simp [hrd]
    · rcases hpost : w.post cfg.base_url
          { model := cfg.model_name, prompt := promptFor format_type, stream := false,
            images := [String.mk (b64encode bs)] } with e | ⟨status, text⟩
      · simp [hrd, hpost]
      · by_cases hst : 400 ≤ status
        · simp [hrd, hpost, hst]
        · simp [hrd, hpost, hst]

/-- C5: any format value outside the five enumerated ones selects the
same instruction template as the explicit `"text"` format, and the whole
single-item call behaves identically to a `"text"` call — the fallback is
not a failure. -/
theorem c5_unknown_format_uses_text_template (format_type : String)
    (h : format_type ∉ ["markdown", "text", "json", "structured", "key_value"]) :
    promptFor format_type = promptFor "text" ∧
    ∀ (cfg : OCRProcessor) (w : World) (fs : FS) (p : String) (pre : Bool),
      processImage cfg w fs p format_type pre = processImage cfg w fs p "text" pre := by
  simp only [List.mem_cons, List.mem_singleton, not_or] at h
  obtain ⟨h1, h2, h3, h4, h5, -⟩ := h
  have hp : promptFor format_type = promptFor "text" := by
    rw [promptFor, promptFor]
    rw [if_neg h1, if_neg h2, if_neg h3, if_neg h4, if_neg h5, if_neg (by decide), if_pos rfl]
  have hpp : ∀ r, postProcess format_type r = postProcess "text" r := by
    intro r
    rw [postProcess, postProcess, if_neg h3, if_neg (by decide)]
  refine ⟨hp, fun cfg w fs p pre => ?_⟩
  unfold processImage
  rw [hp]
  simp only [hpp]

/-- C5 witness: the format value `"bogus"` selects the `"text"` template. -/
theorem c5_witness : promptFor "bogus" = promptFor "text" :=
  (c5_unknown_format_uses_text_template "bogus" (by decide)).1

/-- C4: with the pipeline reaching post-processing (`preprocess = false`,
a readable file, a 200 reply with body text `t`): when `t` parses as
JSON the call returns the parsed value re-serialized by
`json.dumps(·, indent=2)` and re-parsing the returned string recovers a
structurally equal value; when `t` does not parse, the raw text is
returned unchanged and is not a failure. -/
theorem c4_json_roundtrip (cfg : OCRProcessor) (w : World) (fs : FS)
    (image_path t : String) (bs : List Nat)
    (hread : readFileBytes w fs image_path = some bs)
    (hpost : ∀ url pl, w.post url pl = Except.ok (200, t)) :
    (∀ j : JVal, jsonLoads t = some j →
        (processImage cfg w fs image_path "json" false).1 = jsonDumps j ∧
        jsonLoads ((processImage cfg w fs image_path "json" false).1) = some j) ∧
    (jsonLoads t = none → (processImage cfg w fs image_path "json" false).1 = t) := by
  have hrun : (processImage cfg w fs image_path "json" false).1 = postProcess "json" t := by
    unfold processImage
    simp [hread, hpost]
  constructor
  · intro j hj
    have h1 : postProcess "json" t = jsonDumps j := by
      rw [postProcess, if_pos rfl, hj]
    exact ⟨hrun.trans h1, by rw [hrun, h1, jsonLoads_jsonDumps]⟩
  · intro hj
    rw [hrun, postProcess, if_pos rfl, hj]

/-- A world whose endpoint always answers 200 with the JSON text
`{"a": 1}`. -/
def wJson : World := { wOk with post := fun _ _ => .ok (200, "\x7b\"a\": 1\x7d") }

/-- C4 witness: at a concrete world the returned string is the
re-serialization of the parsed object and re-parses to it. -/
theorem c4_witness :
    (processImage {} wJson fs0 "a.png" "json" false).1 =
      jsonDumps (.obj [("a", .num 1)]) ∧
    jsonLoads ((processImage {} wJson fs0 "a.png" "json" false).1) =
      some (.obj [("a", .num 1)]) :=
  (c4_json_roundtrip {} wJson fs0 "a.png" "\x7b\"a\": 1\x7d" [0] rfl
    (fun _ _ => rfl)).1 (.obj [("a", .num 1)]) (by rfl)

/-- Under an all-failing endpoint every single-item call returns a
failure-describing string with the fixed prefix. -/
theorem processImage_fail_prefix (cfg : OCRProcessor) (w : World)
    (hpost : ∀ url pl, ∃ st body, w.post url pl = Except.ok (st, body) ∧ 400 ≤ st)
    (ft : String) (pre : Bool) :
    ∀ (fs : FS) (p : String), ∃ tail,
      (processImage cfg w fs p ft pre).1 = "处理图片时出错: " ++ tail := by
  intro fs p
  unfold processImage
  rcases hpre : (if pre then preprocessImageE w fs p else (Except.ok p, fs)) with ⟨r, fs2⟩
  cases r with
  | error e => exact ⟨e, rfl⟩
  | ok ipath =>
    rcases hrd : readFileBytes w fs2 ipath with _ | bs
    · refine ⟨"[Errno 2] No such file or directory: " ++ ipath, ?_⟩
      simp [hrd]
    · obtain ⟨st, body, hps, hst⟩ := hpost cfg.base_url
        { model := cfg.model_name, prompt := promptFor ft, stream := false,
          images := [String.mk (b64encode bs)] }
      refine ⟨toString st ++ " Error for url: " ++ cfg.base_url, ?_⟩
      simp [hrd, hps, hst]

/-- C2 counterexample: with the endpoint answering HTTP 500 (spec
Scenario C), the failing item's path is NOT recorded in the errors
mapping — `errors` stays empty and the path sits in `results` with a
failure-describing string, refuting the claim as stated. -/
theorem c2_counterexample :
    (processBatch {} w500 fs0 (.single "a.png") "text" false false).errors = [] ∧
    dlookup (processBatch {} w500 fs0 (.single "a.png") "text" false false).results "a.png" =
      some "处理图片时出错: 500 Error for url: http://localhost:11434/api/generate" := by
  exact ⟨rfl, rfl⟩

/-- C2 amended: when the inference endpoint fails every request with a
4xx/5xx status, every item of the batch lands in the RESULTS mapping
under a failure-describing string prefixed `处理图片时出错: `, the errors
mapping stays empty, and no exception escapes `process_batch` (the model
is total). -/
theorem c2_amended_failures_land_in_results (cfg : OCRProcessor) (w : World) (fs : FS)
    (input : BatchInput) (ft : String) (rec pre : Bool)
    (hpost : ∀ url pl, ∃ st body, w.post url pl = Except.ok (st, body) ∧ 400 ≤ st) :
    (processBatch cfg w fs input ft rec pre).errors = [] ∧
    ∀ p ∈ discover w input rec, ∃ s,
      dlookup (processBatch cfg w fs input ft rec pre).results p = some s ∧
      ∃ tail, s = "处理图片时出错: " ++ tail := by
  have hres : (processBatch cfg w fs input ft rec pre).results =
      (runItems cfg w fs (discover w input rec) ft pre [] []).1 := rfl
  have herr : (processBatch cfg w fs input ft rec pre).errors =
      (runItems cfg w fs (discover w input rec) ft pre [] []).2.1 := rfl
  refine ⟨by rw [herr, runItems_errors], ?_⟩
  intro p hp
  have hkey : p ∈ dkeys (processBatch cfg w fs input ft rec pre).results := by
    rw [hres, runItems_mem_keys]
    exact Or.inr hp
  obtain ⟨s, hs⟩ := Option.isSome_iff_exists.mp ((dlookup_isSome_iff _ _).mpr hkey)
  refine ⟨s, hs, ?_⟩
  have hmem : (p, s) ∈ (runItems cfg w fs (discover w input rec) ft pre [] []).1 := by
    rw [← hres]
    exact dlookup_mem _ _ _ hs
  exact runItems_values cfg w (discover w input rec) ft pre
    (fun v => ∃ tail, v = "处理图片时出错: " ++ tail)
    (fun fs2 p2 => processImage_fail_prefix cfg w hpost ft pre fs2 p2)
    fs [] [] (by intro kv hkv; exact absurd hkv (List.not_mem_nil kv)) (p, s) hmem

/-- C2 amended witness at the concrete all-500 world. -/
theorem c2_witness :
    (processBatch {} w500 fs0 (.list ["x", "y"]) "text" false false).errors = [] ∧
    ∃ s, dlookup (processBatch {} w500 fs0 (.list ["x", "y"]) "text" false false).results "x" =
        some s ∧ ∃ tail, s = "处理图片时出错: " ++ tail := by
  obtain ⟨he, hall⟩ := c2_amended_failures_land_in_results {} w500 fs0 (.list ["x", "y"])
    "text" false false (fun url pl => ⟨500, "", rfl, by omega⟩)
  exact ⟨he, hall "x" (by simp [discover])⟩

/-- C1 counterexample: an explicit list holding the same path twice gives
`successful = 1`, `failed = 0`, `total = 2`, so
`successful + failed ≠ total`, refuting the claim as stated. -/
theorem c1_counterexample :
    (processBatch {} wOk fs0 (.list ["a", "a"]) "text" false false).successful = 1 ∧
    (processBatch {} wOk fs0 (.list ["a", "a"]) "text" false false).failed = 0 ∧
    (processBatch {} wOk fs0 (.list ["a", "a"]) "text" false false).total = 2 ∧
    (processBatch {} wOk fs0 (.list ["a", "a"]) "text" false false).successful +
        (processBatch {} wOk fs0 (.list ["a", "a"]) "text" false false).failed ≠
      (processBatch {} wOk fs0 (.list ["a", "a"]) "text" false false).total := by
  refine ⟨rfl, rfl, rfl, by decide⟩

/-- C1 amended: provided the discovered path strings are pairwise
distinct (in particular whenever they come from a directory scan of
distinct files or a duplicate-free explicit list), every discovered path
appears in the results mapping and not in the errors mapping, and the
statistics satisfy `successful = |results|`, `failed = |errors|`,
`total = |discovered|` and `successful + failed = total`. -/
theorem c1_amended_batch_invariant (cfg : OCRProcessor) (w : World) (fs : FS)
    (input : BatchInput) (ft : String) (rec pre : Bool)
    (h : (discover w input rec).Nodup) :
    (∀ p ∈ discover w input rec,
        p ∈ dkeys (processBatch cfg w fs input ft rec pre).results ∧
        p ∉ dkeys (processBatch cfg w fs input ft rec pre).errors) ∧
    (processBatch cfg w fs input ft rec pre).successful =
      (processBatch cfg w fs input ft rec pre).results.length ∧
    (processBatch cfg w fs input ft rec pre).failed =
      (processBatch cfg w fs input ft rec pre).errors.length ∧
    (processBatch cfg w fs input ft rec pre).total = (discover w input rec).length ∧
    (processBatch cfg w fs input ft rec pre).successful +
        (processBatch cfg w fs input ft rec pre).failed =
      (processBatch cfg w fs input ft rec pre).total := by
  have hres : (processBatch cfg w fs input ft rec pre).results =
      (runItems cfg w fs (discover w input rec) ft pre [] []).1 := rfl
  have herr0 : (processBatch cfg w fs input ft rec pre).errors = [] := by
    have herr : (processBatch cfg w fs input ft rec pre).errors =
        (runItems cfg w fs (discover w input rec) ft pre [] []).2.1 := rfl
    rw [herr, runItems_errors]
  have hlen : (runItems cfg w fs (discover w input rec) ft pre [] []).1.length =
      (discover w input rec).length := by
    have := runItems_length_nodup cfg w (discover w input rec) ft pre fs [] [] h
      (by intro q hq hc; exact absurd hc (List.not_mem_nil q))
    simpa using this
  refine ⟨?_, rfl, rfl, rfl, ?_⟩
  · intro p hp
    constructor
    · rw [hres, runItems_mem_keys]
      exact Or.inr hp
    · rw [herr0]
      intro hc
      exact absurd hc (by simp [dkeys])
  · have hs : (processBatch cfg w fs input ft rec pre).successful =
        (runItems cfg w fs (discover w input rec) ft pre [] []).1.length := rfl
    have hf : (processBatch cfg w fs input ft rec pre).failed = 0 := by
      have h2 : (processBatch cfg w fs input ft rec pre).failed =
          (processBatch cfg w fs input ft rec pre).errors.length := rfl
      rw [h2, herr0]
      rfl
    have ht : (processBatch cfg w fs input ft rec pre).total =
        (discover w input rec).length := rfl
    rw [hs, hf, ht, hlen]
    omega

/-- C1 amended witness at a duplicate-free explicit list. -/
theorem c1_witness :
    (processBatch {} wOk fs0 (.list ["a", "b"]) "text" false false).successful +
        (processBatch {} wOk fs0 (.list ["a", "b"]) "text" false false).failed =
      (processBatch {} wOk fs0 (.list ["a", "b"]) "text" false false).total :=
  (c1_amended_batch_invariant {} wOk fs0 (.list ["a", "b"]) "text" false false
    (by decide)).2.2.2.2

/-- C9: because `process_image` converts every exception into a returned
string, the batch errors mapping is always empty and `failed` is always
0; every discovered path is keyed into the results mapping (failures are
represented only as error-describing strings inside results values). -/
theorem c9_errors_always_empty (cfg : OCRProcessor) (w : World) (fs : FS)
    (input : BatchInput) (ft : String) (rec pre : Bool) :
    (processBatch cfg w fs input ft rec pre).errors = [] ∧
    (processBatch cfg w fs input ft rec pre).failed = 0 ∧
    ∀ p ∈ discover w input rec,
      p ∈ dkeys (processBatch cfg w fs input ft rec pre).results := by
  have herr0 : (processBatch cfg w fs input ft rec pre).errors = [] := by
    have herr : (processBatch cfg w fs input ft rec pre).errors =
        (runItems cfg w fs (discover w input rec) ft pre [] []).2.1 := rfl
    rw [herr, runItems_errors]
  refine ⟨herr0, ?_, ?_⟩
  · have h2 : (processBatch cfg w fs input ft rec pre).failed =
        (processBatch cfg w fs input ft rec pre).errors.length := rfl
    rw [h2, herr0]
    rfl
  · intro p hp
    have hres : (processBatch cfg w fs input ft rec pre).results =
        (runItems cfg w fs (discover w input rec) ft pre [] []).1 := rfl
    rw [hres, runItems_mem_keys]
    exact Or.inr hp

/-- C9 witness at a concrete one-item batch. -/
theorem c9_witness :
    (processBatch {} wOk fs0 (.list ["a"]) "text" false false).errors = [] ∧
    (processBatch {} wOk fs0 (.list ["a"]) "text" false false).failed = 0 ∧
    "a" ∈ dkeys (processBatch {} wOk fs0 (.list ["a"]) "text" false false).results := by
  obtain ⟨h1, h2, h3⟩ := c9_errors_always_empty {} wOk fs0 (.list ["a"]) "text" false false
  exact ⟨h1, h2, h3 "a" (by simp [discover])⟩

/-- C10: when the explicit input list repeats a path string, `total`
counts the duplicates while the results and errors mappings hold at most
one key per distinct string (their key lists are duplicate-free), so
`successful + failed` is strictly less than `total`. -/
theorem c10_duplicate_paths_undercount (cfg : OCRProcessor) (w : World) (fs : FS)
    (l : List String) (ft : String) (pre : Bool) (h : ¬ l.Nodup) :
    (processBatch cfg w fs (.list l) ft false pre).total = l.length ∧
    (dkeys (processBatch cfg w fs (.list l) ft false pre).results).Nodup ∧
    (dkeys (processBatch cfg w fs (.list l) ft false pre).errors).Nodup ∧
    (processBatch cfg w fs (.list l) ft false pre).successful +
        (processBatch cfg w fs (.list l) ft false pre).failed <
      (processBatch cfg w fs (.list l) ft false pre).total := by
  have hdisc : discover w (.list l) false = l := rfl
  have hres : (processBatch cfg w fs (.list l) ft false pre).results =
      (runItems cfg w fs l ft pre [] []).1 := rfl
  have herr0 : (processBatch cfg w fs (.list l) ft false pre).errors = [] := by
    have herr : (processBatch cfg w fs (.list l) ft false pre).errors =
        (runItems cfg w fs l ft pre [] []).2.1 := rfl
    rw [herr, runItems_errors]
  refine ⟨rfl, ?_, ?_, ?_⟩
  · rw [hres]
    exact runItems_nodup_keys cfg w l ft pre fs [] [] (by simp [dkeys])
  · rw [herr0]
    simp [dkeys]
  · have hs : (processBatch cfg w fs (.list l) ft false pre).successful =
        (runItems cfg w fs l ft pre [] []).1.length := rfl
    have hf : (processBatch cfg w fs (.list l) ft false pre).failed = 0 := by
      have h2 : (processBatch cfg w fs (.list l) ft false pre).failed =
          (processBatch cfg w fs (.list l) ft false pre).errors.length := rfl
      rw [h2, herr0]
      rfl
    have ht : (processBatch cfg w fs (.list l) ft false pre).total = l.length := rfl
    have hlt := runItems_length_lt_of_dup cfg w l ft pre fs [] [] (Or.inl h)
    rw [hs, hf, ht]
    simpa using hlt

/-- C10 witness at the duplicated list `["a", "a"]`. -/
theorem c10_witness :
    (processBatch {} wOk fs0 (.list ["a", "a"]) "text" false false).total = 2 ∧
    (processBatch {} wOk fs0 (.list ["a", "a"]) "text" false false).successful +
        (processBatch {} wOk fs0 (.list ["a", "a"]) "text" false false).failed <
      (processBatch {} wOk fs0 (.list ["a", "a"]) "text" false false).total := by
  obtain ⟨h1, h2, h3, h4⟩ := c10_duplicate_paths_undercount {} wOk fs0 ["a", "a"] "text" false
    (by decide)
  exact ⟨h1, h4⟩

/-- C6 (code bug): after a successful preprocessed single-item call the
preprocessed temporary file — and for a PDF input also the rendered
first-page file — remains on disk when `process_image` returns: the
generated `tempfile` names (`/tmp/tmpN.jpg`) never end in
`_preprocessed.jpg` or `_temp.jpg`, so the cleanup at lines 106-108 never
fires, and the PDF page temp has no cleanup at all. -/
theorem c6_transient_files_left_on_disk :
    (processImage {} wOk fs0 "photo.png" "text" true).2.files =
      [("/tmp/tmp0.jpg", [0])] ∧
    (processImage {} wOk fs0 "scan.pdf" "text" true).2.files =
      [("/tmp/tmp0.jpg", [0]), ("/tmp/tmp1.jpg", [0])] ∧
    strEndsWith (tempName 0) "_preprocessed.jpg" = false ∧
    strEndsWith (tempName 0) "_temp.jpg" = false := by
  exact ⟨rfl, rfl, rfl, rfl⟩

/-- C8: a directory input discovers exactly the entries whose names end
in one of the five supported extensions, descending into subdirectories
only when `recursive` is set; a non-directory single path and an explicit
list are attempted verbatim with no extension filtering. -/
theorem c8_path_discovery (w : World) (d p : String) (l : List String) (rec : Bool) :
    (w.isDir d = true →
      ∀ s, s ∈ discover w (.single d) rec ↔
        ∃ e ∈ w.dirEntries d, (rec = true ∨ hasSlash e = false) ∧
          (∃ ext ∈ supportedExts, strEndsWith e ext = true) ∧ s = d ++ "/" ++ e) ∧
    (w.isDir p = false → discover w (.single p) rec = [p]) ∧
    discover w (.list l) rec = l := by
  refine ⟨?_, ?_, rfl⟩
  · intro hd s
    simp only [discover, hd, if_true]
    simp only [supportedExts, List.foldl_cons, List.foldl_nil, List.nil_append,
      List.mem_append, globExt, List.mem_map, List.mem_filter,
      Bool.and_eq_true, Bool.or_eq_true, Bool.not_eq_true', List.mem_cons,
      List.mem_singleton, List.not_mem_nil]
    constructor
    · rintro ((((⟨e, ⟨he, hc, hx⟩, rfl⟩ | ⟨e, ⟨he, hc, hx⟩, rfl⟩) | ⟨e, ⟨he, hc, hx⟩, rfl⟩) |
          ⟨e, ⟨he, hc, hx⟩, rfl⟩) | ⟨e, ⟨he, hc, hx⟩, rfl⟩)
      · exact ⟨e, he, hc.imp_left id, ⟨".png", by simp, hx⟩, rfl⟩
      · exact ⟨e, he, hc.imp_left id, ⟨".jpg", by simp, hx⟩, rfl⟩
      · exact ⟨e, he, hc.imp_left id, ⟨".jpeg", by simp, hx⟩, rfl⟩
      · exact ⟨e, he, hc.imp_left id, ⟨".pdf", by simp, hx⟩, rfl⟩
      · exact ⟨e, he, hc.imp_left id, ⟨".tiff", by simp, hx⟩, rfl⟩
    · rintro ⟨e, he, hc, ⟨ext, hext, hx⟩, rfl⟩
      rcases hext with rfl | rfl | rfl | rfl | rfl | h0
      · exact Or.inl (Or.inl (Or.inl (Or.inl ⟨e, ⟨he, hc, hx⟩, rfl⟩)))
      · exact Or.inl (Or.inl (Or.inl (Or.inr ⟨e, ⟨he, hc, hx⟩, rfl⟩)))
      · exact Or.inl (Or.inl (Or.inr ⟨e, ⟨he, hc, hx⟩, rfl⟩))
      · exact Or.inl (Or.inr ⟨e, ⟨he, hc, hx⟩, rfl⟩)
      · exact Or.inr ⟨e, ⟨he, hc, hx⟩, rfl⟩
      · exact h0.elim
  · intro hp
    simp [discover, hp]

/-- A world with one directory `"d"` listing a mix of matching,
non-matching and nested entries, used to witness C8. -/
def wDir : World :=
  { wOk with
    isDir := fun s => s == "d"
    dirEntries := fun _ => ["x.png", "sub/y.pdf", "z.txt", "w.jpeg"] }

/-- C8 witness: a matching flat file is discovered, a nested file is
discovered only under `recursive`, a plain-text file never; a
non-directory path and an explicit list pass through verbatim. -/
theorem c8_witness :
    ("d/x.png" ∈ discover wDir (.single "d") false) ∧
    ("d/sub/y.pdf" ∉ discover wDir (.single "d") false) ∧
    ("d/sub/y.pdf" ∈ discover wDir (.single "d") true) ∧
    ("d/z.txt" ∉ discover wDir (.single "d") true) ∧
    discover wDir (.single "f.txt") false = ["f.txt"] ∧
    discover wDir (.list ["p", "q"]) true = ["p", "q"] := by
  refine ⟨?_, ?_, ?_, ?_, ?_, ?_⟩
  · exact ((c8_path_discovery wDir "d" "f.txt" [] false).1 rfl "d/x.png").mpr
      ⟨"x.png", by decide, Or.inr rfl, ⟨".png", by simp [supportedExts], rfl⟩, rfl⟩
  · intro hc
    obtain ⟨e, he, hcond, hext, heq⟩ :=
      ((c8_path_discovery wDir "d" "f.txt" [] false).1 rfl "d/sub/y.pdf").mp hc
    have he2 : e = "sub/y.pdf" := by
      rw [show wDir.dirEntries "d" = ["x.png", "sub/y.pdf", "z.txt", "w.jpeg"] from rfl] at he
      simp only [List.mem_cons, List.not_mem_nil, or_false] at he
      rcases he with rfl | rfl | rfl | rfl
      · exact absurd heq (by decide)
      · rfl
      · exact absurd heq (by decide)
      · exact absurd heq (by decide)
    subst he2
    rcases hcond with hrec | hslash
    · exact absurd hrec (by decide)
    · exact absurd hslash (by decide)
  · exact ((c8_path_discovery wDir "d" "f.txt" [] true).1 rfl "d/sub/y.pdf").mpr
      ⟨"sub/y.pdf", by decide, Or.inl rfl, ⟨".pdf", by simp [supportedExts], rfl⟩, rfl⟩
  · intro hc
    obtain ⟨e, he, hcond, ⟨ext, hext, hends⟩, heq⟩ :=
      ((c8_path_discovery wDir "d" "f.txt" [] true).1 rfl "d/z.txt").mp hc
    have he2 : e = "z.txt" := by
      rw [show wDir.dirEntries "d" = ["x.png", "sub/y.pdf", "z.txt", "w.jpeg"] from rfl] at he
      simp only [List.mem_cons, List.not_mem_nil, or_false] at he
      rcases he with rfl | rfl | rfl | rfl
      · exact absurd heq (by decide)
      · exact absurd heq (by decide)
      · rfl
      · exact absurd heq (by decide)
    subst he2
    simp only [supportedExts, List.mem_cons, List.not_mem_nil, or_false] at hext
    rcases hext with rfl | rfl | rfl | rfl | rfl <;> exact absurd hends (by decide)
  · exact (c8_path_discovery wDir "d" "f.txt" [] false).2.1 rfl
  · exact (c8_path_discovery wDir "d" "f.txt" ["p", "q"] true).2.2
